import Mathlib

/-
Verification of the discovery/configuration protocol engine (Go UDP agent
and its GUI client).  Pure cores of the Go functions are embedded as Lean
definitions; effectful parts (file IO, sockets) are modelled by passing the
file content / outcome flags explicitly.  Byte strings are modelled as Lean
strings over their character lists; only ASCII is exercised by the protocol.
-/

namespace Trae

/-- Whitespace test matching Go's unicode.IsSpace on the Latin-1 range
(space, tab, newline, vertical tab, form feed, carriage return, NEL, NBSP),
as used by strings.TrimSpace / strings.Fields. -/
def goIsSpace (c : Char) : Bool :=
  c = ' ' || c = '\t' || c = '\n' || c = '\x0b' || c = '\x0c' || c = '\r' ||
    c.toNat = 133 || c.toNat = 160

/-- Drop leading whitespace characters (one side of strings.TrimSpace). -/
def dropSpaces : List Char → List Char
  | [] => []
  | c :: cs => if goIsSpace c then dropSpaces cs else c :: cs

/-- Character-list core of Go's strings.TrimSpace: trim both ends. -/
def trimChars (cs : List Char) : List Char :=
  (dropSpaces ((dropSpaces cs).reverse)).reverse

/-- Go strings.TrimSpace. -/
def goTrim (s : String) : String := ⟨trimChars s.data⟩

/-- ASCII branch of Go's strings.ToUpper on one character. -/
def goUpChar (c : Char) : Char :=
  if 'a' ≤ c ∧ c ≤ 'z' then Char.ofNat (c.toNat - 32) else c

/-- Go strings.ToUpper (ASCII; the protocol alphabet is ASCII). -/
def goToUpper (s : String) : String := ⟨s.data.map goUpChar⟩

/-- Boolean list-prefix test: listPre p l decides whether p is a prefix of l.
Character-list core of Go's strings.HasPrefix. -/
def listPre : List Char → List Char → Bool
  | [], _ => true
  | _ :: _, [] => false
  | p :: ps, c :: cs => if p = c then listPre ps cs else false

/-- Go strings.HasPrefix. -/
def goStarts (s p : String) : Bool := listPre p.data s.data

/-- Go strings.HasSuffix. -/
def goEnds (s p : String) : Bool := listPre p.data.reverse s.data.reverse

/-- Contiguous-sublist (substring) test on character lists; core of Go's
strings.Contains. -/
def hasSubList (pat : List Char) : List Char → Bool
  | [] => listPre pat []
  | c :: cs => listPre pat (c :: cs) || hasSubList pat cs

/-- Go strings.Contains. -/
def goContains (s pat : String) : Bool := hasSubList pat.data s.data

/-- Split a character list on a separator character; core of Go's
strings.Split with a one-character separator. -/
def splitOnChar (c : Char) : List Char → List (List Char)
  | [] => [[]]
  | x :: xs =>
    if x = c then [] :: splitOnChar c xs
    else
      match splitOnChar c xs with
      | [] => [[x]]
      | s :: rest => (x :: s) :: rest

/-- Split at the first occurrence of a character, if any; core of Go's
strings.SplitN(s, sep, 2) and strings.Index. -/
def splitFirst (c : Char) : List Char → Option (List Char × List Char)
  | [] => none
  | x :: xs =>
    if x = c then some ([], xs)
    else
      match splitFirst c xs with
      | none => none
      | some (a, b) => some (x :: a, b)

/-- Go strings.TrimPrefix. -/
def goTrimPre (s p : String) : String :=
  if listPre p.data s.data then ⟨s.data.drop p.data.length⟩ else s

/-- Accumulator-based splitting on whitespace runs; core of Go's
strings.Fields. -/
def fieldsChars (acc : List Char) : List Char → List (List Char)
  | [] => if acc.isEmpty then [] else [acc.reverse]
  | c :: cs =>
    if goIsSpace c then
      if acc.isEmpty then fieldsChars [] cs else acc.reverse :: fieldsChars [] cs
    else fieldsChars (c :: acc) cs

/-- Go strings.Fields. -/
def goFields (s : String) : List String :=
  (fieldsChars [] s.data).map (fun l => ⟨l⟩)

/-- Decimal value of a digit list (most significant first). -/
def octetVal (l : List Char) : Nat :=
  l.foldl (fun n c => n * 10 + (c.toNat - 48)) 0

/-- Validity of one dotted-decimal IPv4 field per Go's net.parseIPv4:
non-empty, all digits, value at most 255, no leading zero. -/
def validOctet (l : List Char) : Bool :=
  (decide (l ≠ [])) && l.all (fun c => c.isDigit) && decide (octetVal l ≤ 255) &&
    (decide (l.length = 1) || decide (l.head? ≠ some '0'))

/-- Dotted-decimal branch of Go's net.ParseIP followed by To4 (the only
branch the protocol exercises; other inputs yield nil there and none here). -/
def parseIPv4 (s : String) : Option (Nat × Nat × Nat × Nat) :=
  match splitOnChar '.' s.data with
  | [a, b, c, d] =>
    if validOctet a && validOctet b && validOctet c && validOctet d then
      some (octetVal a, octetVal b, octetVal c, octetVal d)
    else none
  | _ => none

/-- The agent's isIPv4 helper (net.ParseIP on the trimmed string, To4 test). -/
def isIPv4 (s : String) : Bool := (parseIPv4 (goTrim s)).isSome

/-- Count set bits from the given bit positions downward, stopping at the
first clear bit: the inner loop of the agent's maskToPrefix. -/
def onesFrom (b : Nat) : List Nat → Nat
  | [] => 0
  | i :: is => if b.testBit i then 1 + onesFrom b is else 0

/-- Leading one-bits of one mask byte (bits 7 down to 0). -/
def leadingOnes (b : Nat) : Nat := onesFrom b [7, 6, 5, 4, 3, 2, 1, 0]

/-- The agent's maskToPrefix: parse the trimmed dotted mask, then sum the
per-byte leading one-bit counts; 0 when the mask does not parse. -/
def maskToPfx (mask : String) : Nat :=
  match parseIPv4 (goTrim mask) with
  | some (a, b, c, d) => leadingOnes a + leadingOnes b + leadingOnes c + leadingOnes d
  | none => 0

/-- The agent's prefixToMask: 0 maps to 0.0.0.0, otherwise the dotted
rendering of 0xFFFFFFFF shifted left by 32-pfx (32-bit arithmetic). -/
def pfxToMask (pfx : Nat) : String :=
  if pfx = 0 then "0.0.0.0"
  else
    let m := (4294967295 <<< (32 - pfx)) % 4294967296
    Nat.repr ((m >>> 24) % 256) ++ "." ++ Nat.repr ((m >>> 16) % 256) ++ "." ++
      Nat.repr ((m >>> 8) % 256) ++ "." ++ Nat.repr (m % 256)

/-- Digit-list parsing for goAtoi. -/
def digitsToNat (l : List Char) : Option Nat :=
  if l ≠ [] ∧ l.all (fun c => c.isDigit) then some (octetVal l) else none

/-- Go strconv.Atoi on the inputs the engine exercises (optional sign and
digits; the int64 overflow bound is not modelled — every value the engine
accepts is at most 32). -/
def goAtoi (s : String) : Option Int :=
  match s.data with
  | '+' :: rest => (digitsToNat rest).map (fun n => (n : Int))
  | '-' :: rest => (digitsToNat rest).map (fun n => -(n : Int))
  | l => (digitsToNat l).map (fun n => (n : Int))

/-- Section-header test from upsertInSection's end-of-section scan: the
trimmed line starts with [ and ends with ]. -/
def isHeader (l : String) : Bool :=
  goStarts (goTrim l) "[" && goEnds (goTrim l) "]"

/-- Key-match test from upsertInSection's search loop: the trimmed line
starts with the key prefix string. -/
def keyMatch (key l : String) : Bool := goStarts (goTrim l) key

/-- Body part of upsertInSection, scanning the lines after the section
header: replace the first key-matching line before the next section header;
otherwise insert the new line before that header, or append it at end of
file.  This is the structural form of the Go index loops (find end = first
header after start; replace first match in start+1..end; else insert at
end). -/
def upsertBody (key new : String) : List String → List String
  | [] => [new]
  | l :: rest =>
    if isHeader l then new :: l :: rest
    else if keyMatch key l then new :: rest
    else l :: upsertBody key new rest

/-- Scan for the first line whose trimmed form equals the section header;
when found, continue with upsertBody on the remaining lines; when the
section is missing, append a blank line, the header and the new line (the
Go code appends "" and the section, leaving an empty search range, then
appends the new line at end of file). -/
def upsertLines (sec key new : String) : List String → List String
  | [] => ["", sec, new]
  | l :: rest =>
    if goTrim l = sec then l :: upsertBody key new rest
    else l :: upsertLines sec key new rest

/-- The agent's upsertInSection: a no-op when the new line is empty. -/
def upsertInSection (lines : List String) (sec key new : String) : List String :=
  if new = "" then lines else upsertLines sec key new lines

/-- The hasNetwork scan of applySystemdNetworkConfig. -/
def hasNetworkSection : List String → Bool
  | [] => false
  | l :: rest => if goTrim l = "[Network]" then true else hasNetworkSection rest

/-- The ensure-[Network]-exists step of applySystemdNetworkConfig. -/
def ensureNetworkSection (lines : List String) : List String :=
  if hasNetworkSection lines then lines else lines ++ ["", "[Network]"]

/-- The address-line computation of applySystemdNetworkConfig: empty when ip
is empty; ip/prefix when the mask is non-empty and its prefix is positive;
plain ip otherwise. -/
def addrLineFor (ip mask : String) : String :=
  if ip = "" then ""
  else if mask = "" then "Address=" ++ ip
  else if maskToPfx mask > 0 then
    "Address=" ++ ip ++ "/" ++ Nat.repr (maskToPfx mask)
  else "Address=" ++ ip

/-- Pure core of applySystemdNetworkConfig: given the current file lines and
the static intent, ensure the [Network] section and upsert the Address,
Gateway, DNS and DHCP lines (file path selection and the write itself are
effectful and outside this model). -/
def applyStaticLines (lines : List String) (ip mask gw dns : String) : List String :=
  let ls := ensureNetworkSection lines
  let addrLine := addrLineFor ip mask
  let gwLine := if gw = "" then "" else "Gateway=" ++ gw
  let dnsLine := if dns = "" then "" else "DNS=" ++ dns
  let l1 := upsertInSection ls "[Network]" "Address=" addrLine
  let l2 := upsertInSection l1 "[Network]" "Gateway=" gwLine
  let l3 := upsertInSection l2 "[Network]" "DNS=" dnsLine
  upsertInSection l3 "[Network]" "DHCP=" "DHCP=no"

/-- Go strings.Join(lines, newline): the byte content written back. -/
def renderLines : List String → String
  | [] => ""
  | [l] => l
  | l :: rest => l ++ "\n" ++ renderLines rest

/-- Number of key-matching lines before the next section header (the
key occurrences inside one section's scan region). -/
def matchCount (key : String) : List String → Nat
  | [] => 0
  | l :: rest =>
    if isHeader l then 0
    else (if keyMatch key l then 1 else 0) + matchCount key rest

/-- Number of key-matching lines inside the section that starts at the first
line trimming to sec (0 when the section is absent). -/
def sectionKeyCount (sec key : String) : List String → Nat
  | [] => 0
  | l :: rest =>
    if goTrim l = sec then matchCount key rest else sectionKeyCount sec key rest

/-- Lines strictly after the given line until the next section header. -/
def takeToHeader : List String → List String
  | [] => []
  | l :: rest => if isHeader l then [] else l :: takeToHeader rest

/-- Content of the section named s: the lines between the first line
trimming to s and the next section header (empty when s is absent). -/
def sectionSpan (s : String) : List String → List String
  | [] => []
  | l :: rest => if goTrim l = s then takeToHeader rest else sectionSpan s rest

/-- Scanning the body, the first key-matching line appears before any
section header and already equals v. -/
def stableFor (key v : String) : List String → Prop
  | [] => False
  | l :: rest =>
    isHeader l = false ∧
      ((keyMatch key l = true ∧ l = v) ∨ (keyMatch key l = false ∧ stableFor key v rest))

/-- The agent's persisted device record (DeviceConfig in main.go). -/
structure DeviceConfig where
  id : String
  ip : String
  port : String
deriving DecidableEq, Repr

/-- One pipe-separated segment of parseConfig's loop: split at the first =,
uppercase and trim the key, trim the value, store ID/IP/PORT. -/
def cfgSegStep (cfg : DeviceConfig) (p : List Char) : DeviceConfig :=
  match splitFirst '=' p with
  | none => cfg
  | some (k, v) =>
    let key := goToUpper (goTrim ⟨k⟩)
    let value := goTrim ⟨v⟩
    if key = "ID" then { cfg with id := value }
    else if key = "IP" then { cfg with ip := value }
    else if key = "PORT" then { cfg with port := value }
    else cfg

/-- The agent's parseConfig: strip a leading CFG| (detected on the
uppercased message), split on pipes, collect ID/IP/PORT segments. -/
def parseConfig (s : String) : DeviceConfig :=
  let body := if goStarts (goToUpper s) "CFG|" then (⟨s.data.drop 4⟩ : String) else s
  (splitOnChar '|' body.data).foldl cfgSegStep ⟨"", "", ""⟩

/-- The network key-value quadruple extracted by parseNetKV. -/
structure NetFields where
  ip : String
  mask : String
  gw : String
  dns : String
deriving DecidableEq, Repr

/-- One segment of parseNetKV's loop. -/
def netSegStep (q : NetFields) (p : List Char) : NetFields :=
  match splitFirst '=' p with
  | none => q
  | some (k, v) =>
    let key := goToUpper (goTrim ⟨k⟩)
    let value := goTrim ⟨v⟩
    if key = "IP" then { q with ip := value }
    else if key = "MASK" then { q with mask := value }
    else if key = "GW" then { q with gw := value }
    else if key = "DNS" then { q with dns := value }
    else q

/-- The agent's parseNetKV: drop everything up to and including the first
pipe, then collect IP/MASK/GW/DNS segments (a later occurrence of a key
overwrites an earlier one). -/
def parseNetKV (s : String) : NetFields :=
  let rest :=
    match splitFirst '|' s.data with
    | none => s.data
    | some (_, r) => r
  (splitOnChar '|' rest).foldl netSegStep ⟨"", "", "", ""⟩

/-- The agent's hasDHCPFlag: substring search for DHCP=1, DHCP=YES or
DHCP=TRUE in the uppercased message. -/
def hasDHCPFlag (s : String) : Bool :=
  goContains (goToUpper s) "DHCP=1" || goContains (goToUpper s) "DHCP=YES" ||
    goContains (goToUpper s) "DHCP=TRUE"

/-- Which network apply (if any) the CFG branch invokes. -/
inductive NetAction where
  | dhcp
  | staticCfg
  | noAction
deriving DecidableEq, Repr

/-- Network-action classification of the CFG dispatch branch: DHCP when the
flag test fires, else static when any of IP/MASK/GW/DNS parsed non-empty,
else no network action. -/
def netActionOf (msg : String) : NetAction :=
  if hasDHCPFlag msg then .dhcp
  else
    let f := parseNetKV msg
    if f.ip ≠ "" ∨ f.mask ≠ "" ∨ f.gw ≠ "" ∨ f.dns ≠ "" then .staticCfg
    else .noAction

/-- The merge step of saveConfig: non-empty incoming fields overwrite the
stored record. -/
def mergeConfig (existing incoming : DeviceConfig) : DeviceConfig :=
  { id := if incoming.id ≠ "" then incoming.id else existing.id,
    ip := if incoming.ip ≠ "" then incoming.ip else existing.ip,
    port := if incoming.port ≠ "" then incoming.port else existing.port }

/-- Parsed CFG record with the target id defaulted to the agent's own
device id when absent (main.go lines 96-100). -/
def cfgPatched (deviceID msg : String) : DeviceConfig :=
  let cfg0 := parseConfig msg
  if cfg0.id = "" then { cfg0 with id := deviceID } else cfg0

/-- Result of one CFG request: the reply string, which network apply ran,
and the stored record afterwards. -/
structure CfgOutcome where
  reply : String
  action : NetAction
  record : DeviceConfig
deriving DecidableEq, Repr

/-- The CFG branch of the dispatcher switch in main, with the effectful
outcomes abstracted: saveOk is whether saveConfig succeeded and applyOk
whether the attempted network apply succeeded.  The record is merged on a
successful save and left unchanged otherwise. -/
def cfgStep (existing : DeviceConfig) (deviceID msg : String)
    (saveOk applyOk : Bool) : CfgOutcome :=
  let cfg := cfgPatched deviceID msg
  if saveOk = false then
    { reply := "CFG_NACK|ERR=SAVE_FAILED", action := .noAction, record := existing }
  else
    let saved := mergeConfig existing cfg
    if hasDHCPFlag msg then
      { reply :=
          if applyOk then "CFG_ACK|ID=" ++ cfg.id ++ "|NET_ACK"
          else "CFG_ACK|ID=" ++ cfg.id ++ "|NET_NACK",
        action := .dhcp, record := saved }
    else
      let f := parseNetKV msg
      if f.ip ≠ "" ∨ f.mask ≠ "" ∨ f.gw ≠ "" ∨ f.dns ≠ "" then
        { reply :=
            if applyOk then "CFG_ACK|ID=" ++ cfg.id ++ "|NET_ACK"
            else "CFG_ACK|ID=" ++ cfg.id ++ "|NET_NACK",
          action := .staticCfg, record := saved }
      else
        { reply := "CFG_ACK|ID=" ++ cfg.id, action := .noAction, record := saved }

/-- Claim-side reading of a present DHCP flag (stated from the spec's
words, for comparison with hasDHCPFlag): some pipe-separated segment is a
key-value pair whose key is DHCP and whose value is 1, yes or true,
case-insensitively. -/
def specDHCPFlagPresent (s : String) : Bool :=
  (splitOnChar '|' s.data).any fun p =>
    match splitFirst '=' p with
    | none => false
    | some (k, v) =>
      decide (goToUpper (goTrim ⟨k⟩) = "DHCP") &&
        (decide (goToUpper (goTrim ⟨v⟩) = "1") ||
          decide (goToUpper (goTrim ⟨v⟩) = "YES") ||
          decide (goToUpper (goTrim ⟨v⟩) = "TRUE"))

/-- Accumulator of parseNetworkFiles' line scan. -/
structure ScanState where
  addr : String
  gw : String
  dns : String
deriving DecidableEq, Repr

/-- One line of parseNetworkFiles: trim; skip blank and comment lines; an
Address=/Gateway= line overwrites the accumulated value; a DNS= line stores
its first IPv4 whitespace-field, if any. -/
def scanLine (st : ScanState) (line : String) : ScanState :=
  let s := goTrim line
  if s = "" then st
  else if goStarts s "#" then st
  else if goStarts s "Address=" then { st with addr := goTrim (goTrimPre s "Address=") }
  else if goStarts s "Gateway=" then { st with gw := goTrim (goTrimPre s "Gateway=") }
  else if goStarts s "DNS=" then
    match (goFields (goTrim (goTrimPre s "DNS="))).find? (fun d => isIPv4 d) with
    | some d => { st with dns := d }
    | none => st
  else st

/-- Post-processing of the accumulated Address value in parseNetworkFiles:
ip/prefix with an Atoi-parsed prefix in 0..32, or a plain IPv4 address with
no mask. -/
def addrToIpMask (addr : String) : String × String :=
  if addr ≠ "" then
    match splitOnChar '/' addr.data with
    | [a, b] =>
      if isIPv4 (goTrim ⟨a⟩) then
        (goTrim ⟨a⟩,
          match goAtoi ⟨b⟩ with
          | some pfx => if 0 ≤ pfx ∧ pfx ≤ 32 then pfxToMask pfx.toNat else ""
          | none => "")
      else ("", "")
    | _ => if isIPv4 addr then (addr, "") else ("", "")
  else ("", "")

/-- Pure per-file core of parseNetworkFiles: scan the lines, then derive ip
and mask from the accumulated Address value. -/
def parseNetLines (lines : List String) : NetFields :=
  let st := lines.foldl scanLine ⟨"", "", ""⟩
  ⟨(addrToIpMask st.addr).1, (addrToIpMask st.addr).2, st.gw, st.dns⟩

/-- The agent's getNetworkParams with the effectful sources abstracted: the
config-file lines are consulted first and the live interface / routing
table / resolver values fill only the fields the file left empty. -/
def getNetworkParams (fileLines : List String)
    (liveIp liveMask liveGw liveDns : String) : NetFields :=
  let f := parseNetLines fileLines
  { ip := if f.ip = "" then liveIp else f.ip,
    mask := if f.mask = "" then liveMask else f.mask,
    gw := if f.gw = "" then liveGw else f.gw,
    dns := if f.dns = "" then liveDns else f.dns }

/-- Value extracted from an Address line by the scan. -/
def addrValOf (l : String) : String := goTrim (goTrimPre (goTrim l) "Address=")

/-- Value of the last Address-matching line, scanning from the front. -/
def lastAddrVal : List String → Option String
  | [] => none
  | l :: rest =>
    match lastAddrVal rest with
    | some v => some v
    | none => if keyMatch "Address=" l then some (addrValOf l) else none

/-- Reconstruction of a list from its split (inverse of splitOnChar). -/
def joinWithChar (c : Char) : List (List Char) → List Char
  | [] => []
  | [x] => x
  | x :: xs => x ++ c :: joinWithChar c xs

/-- Go strings.Join(parts, pipe). -/
def joinPipe : List String → String
  | [] => ""
  | [s] => s
  | s :: rest => s ++ "|" ++ joinPipe rest

/-- Replace every pipe with a colon (the RESTART error sanitiser,
strings.ReplaceAll(err, pipe, colon)). -/
def goReplacePipe (s : String) : String :=
  ⟨s.data.map (fun c => if c = '|' then ':' else c)⟩

/-- Hexadecimal digit characters, lowercase as strconv.FormatInt emits. -/
def hexDigit : Nat → Char
  | 0 => '0'
  | 1 => '1'
  | 2 => '2'
  | 3 => '3'
  | 4 => '4'
  | 5 => '5'
  | 6 => '6'
  | 7 => '7'
  | 8 => '8'
  | 9 => '9'
  | 10 => 'a'
  | 11 => 'b'
  | 12 => 'c'
  | 13 => 'd'
  | 14 => 'e'
  | 15 => 'f'
  | _ => '0'

/-- Base-16 rendering, most significant digit first: strconv.FormatInt on
the non-negative millisecond timestamps at hand. -/
def toHexChars (n : Nat) : List Char :=
  if n < 16 then [hexDigit n]
  else toHexChars (n / 16) ++ [hexDigit (n % 16)]
termination_by n
decreasing_by exact Nat.div_lt_self (by omega) (by omega)

/-- The grouping loop of generateUniqueID: four characters, then a dash
whenever more remain. -/
def group4 : List Char → List Char
  | a :: b :: c :: d :: e :: rest => a :: b :: c :: d :: '-' :: group4 (e :: rest)
  | cs => cs

/-- generateUniqueID as a function of the millisecond timestamp: uppercase
hex rendering, a leading 0, dashes after every four characters. -/
def generateUniqueID (ts : Nat) : String :=
  ⟨group4 ('0' :: (toHexChars ts).map goUpChar)⟩

/-- ensureUniqueID with the identity file abstracted: stored is the file
content when the file exists.  A stored identifier is trimmed and returned
when non-empty after trimming; otherwise a fresh one is generated from the
timestamp (persisting it and the hostname label are file effects outside
the model). -/
def ensureUniqueID (stored : Option String) (ts : Nat) : String :=
  match stored with
  | some content =>
    let id := goTrim content
    if id ≠ "" then id else generateUniqueID ts
  | none => generateUniqueID ts

/-- Four-character chunks, stated from the spec's words as the refinement
reference for the identifier rendering. -/
def chunks4 : List Char → List (List Char)
  | a :: b :: c :: d :: e :: rest => [a, b, c, d] :: chunks4 (e :: rest)
  | [] => []
  | cs => [cs]

/-- Dash-separated join, stated from the spec's words as the refinement
reference for the identifier rendering. -/
def dashJoin : List (List Char) → List Char
  | [] => []
  | [x] => x
  | x :: xs => x ++ '-' :: dashJoin xs

/-- Abstracted agent state and per-request effect outcomes. -/
structure AgentEnv where
  port : String
  deviceID : String
  uid : String
  net : NetFields
  ifn : String
  existing : DeviceConfig
  saveOk : Bool
  applyOk : Bool
  restartErr : Option String

/-- The QUERY_NET reply construction: NET plus the known fields, then the
interface name (with the eth0 fallback) twice, joined with pipes. -/
def queryResp (env : AgentEnv) : String :=
  let parts := ["NET"]
    ++ (if env.net.ip ≠ "" then ["IP=" ++ env.net.ip] else [])
    ++ (if env.net.mask ≠ "" then ["MASK=" ++ env.net.mask] else [])
    ++ (if env.net.gw ≠ "" then ["GW=" ++ env.net.gw] else [])
    ++ (if env.net.dns ≠ "" then ["DNS=" ++ env.net.dns] else [])
  let ifn := if env.ifn = "" then "eth0" else env.ifn
  joinPipe (parts ++ ["IF=" ++ ifn, "IFACE=" ++ ifn])

/-- The dispatcher switch of main: trim the datagram, classify the command
case-insensitively, build the reply; effectful outcomes come from env. -/
def respond (env : AgentEnv) (raw : String) : String :=
  let msg := goTrim raw
  if goToUpper msg = "TF" then "TF|ID=" ++ env.uid ++ "|PORT=" ++ env.port
  else if goToUpper msg = "GET_ID" then "ID=" ++ env.uid
  else if goToUpper msg = "QUERY" ∨ goToUpper msg = "QRY" ∨
      goToUpper msg = "QUERY_NET" ∨ goToUpper msg = "QRY_NET" ∨
      goToUpper msg = "NET" ∨ goToUpper msg = "GET_NET" then
    queryResp env
  else if goStarts (goToUpper msg) "CFG|" then
    (cfgStep env.existing env.deviceID msg env.saveOk env.applyOk).reply
  else if goToUpper msg = "RESTART" then
    match env.restartErr with
    | none => "RESTART_ACK"
    | some e => "RESTART_NACK|ERR=" ++ goReplacePipe e
  else "UNKNOWN_CMD"

/-- The GUI client's buildNetCfg: CFG plus the non-empty trimmed fields in
IP, MASK, GW, DNS order, joined with pipes. -/
def buildNetCfg (ip mask gw dns : String) : String :=
  joinPipe (["CFG"]
    ++ (if goTrim ip = "" then [] else ["IP=" ++ goTrim ip])
    ++ (if goTrim mask = "" then [] else ["MASK=" ++ goTrim mask])
    ++ (if goTrim gw = "" then [] else ["GW=" ++ goTrim gw])
    ++ (if goTrim dns = "" then [] else ["DNS=" ++ goTrim dns]))

/-- Acceptance test of sendCfgAndWaitAck's read loop: the trimmed,
uppercased reply starts with CFG_ACK. -/
def cfgAckAccepts (raw : String) : Bool :=
  goStarts (goToUpper (goTrim raw)) "CFG_ACK"

/-- Acceptance test of sendRestartAndWaitAck's read loop: the trimmed,
uppercased reply contains RESTART_ACK (the redundant CFG_ACK-guarded second
check is kept for fidelity). -/
def restartAccepts (raw : String) : Bool :=
  goContains (goToUpper (goTrim raw)) "RESTART_ACK" ||
    (goStarts (goToUpper (goTrim raw)) "CFG_ACK" &&
      goContains (goToUpper (goTrim raw)) "RESTART_ACK")

/-- One optional key=value segment of the client's CFG builder. -/
def optSeg (k v : String) : List String :=
  if goTrim v = "" then [] else [k ++ goTrim v]

/-- C7: prefixToMask(24) is 255.255.255.0, maskToPrefix(255.255.255.0) is 24,
and maskToPrefix inverts prefixToMask on every prefix length 0..32. -/
theorem C7_mask_pfx_conversion :
    pfxToMask 24 = "255.255.255.0" ∧ maskToPfx "255.255.255.0" = 24 ∧
      ∀ p : Fin 33, maskToPfx (pfxToMask p.val) = p.val := by
  refine ⟨by decide, by decide, by decide⟩

theorem data_append (a b : String) : (a ++ b).data = a.data ++ b.data := rfl

theorem ne_empty_of_data (l : String) (kd rest : List Char)
    (hd : l.data = kd ++ rest) (hne : kd ≠ []) : l ≠ "" := by
  intro h
  rw [h] at hd
  cases kd with
  | nil => exact hne rfl
  | cons c cs => exact absurd hd.symm (by simp [String.data])

theorem listPre_append_self : ∀ a b : List Char, listPre a (a ++ b) = true
  | [], _ => rfl
  | x :: xs, b => by simp [listPre, listPre_append_self xs b]

theorem listPre_append_of_incomp : ∀ p k X : List Char,
    listPre p k = false → listPre k p = false → listPre p (k ++ X) = false
  | [], k, X, h1, _ => by simp [listPre] at h1
  | _ :: _, [], X, _, h2 => by simp [listPre] at h2
  | p :: ps, c :: cs, X, h1, h2 => by
    by_cases h : p = c
    · subst h
      simp only [listPre, if_pos rfl] at h1 h2
      simpa [listPre] using listPre_append_of_incomp ps cs X h1 h2
    · simp [listPre, h]

theorem dropSpaces_of_head (c : Char) (l : List Char) (h : goIsSpace c = false) :
    dropSpaces (c :: l) = c :: l := by simp [dropSpaces, h]

theorem dropSpaces_all (l : List Char) (h : ∀ c ∈ l, goIsSpace c = false) :
    dropSpaces l = l := by
  cases l with
  | nil => rfl
  | cons c cs => exact dropSpaces_of_head c cs (h c (by simp))

theorem dropSpaces_append : ∀ a b : List Char,
    dropSpaces (a ++ b) = if dropSpaces a = [] then dropSpaces b else dropSpaces a ++ b
  | [], b => by simp [dropSpaces]
  | c :: cs, b => by
    by_cases h : goIsSpace c
    · simpa [dropSpaces, h] using dropSpaces_append cs b
    · simp [dropSpaces, h]

theorem trimChars_all (l : List Char) (h : ∀ c ∈ l, goIsSpace c = false) :
    trimChars l = l := by
  unfold trimChars
  rw [dropSpaces_all l h,
    dropSpaces_all l.reverse (by intro c hc; exact h c (List.mem_reverse.mp hc)),
    List.reverse_reverse]

theorem goTrim_all (s : String) (h : ∀ c ∈ s.data, goIsSpace c = false) :
    goTrim s = s := by
  show String.mk (trimChars s.data) = s
  rw [trimChars_all s.data h]

/-- Trimming a line that starts with a run of non-space characters keeps
that run as a prefix. -/
theorem trim_key_decomp (kd vd : List Char) (hne : kd ≠ [])
    (hns : ∀ c ∈ kd, goIsSpace c = false) :
    ∃ X, trimChars (kd ++ vd) = kd ++ X := by
  obtain ⟨c, cs, rfl⟩ : ∃ c cs, kd = c :: cs := by
    cases kd with
    | nil => exact absurd rfl hne
    | cons c cs => exact ⟨c, cs, rfl⟩
  unfold trimChars
  rw [List.cons_append, dropSpaces_of_head _ _ (hns c (by simp)), ← List.cons_append,
    List.reverse_append, dropSpaces_append]
  by_cases h0 : dropSpaces vd.reverse = []
  · rw [if_pos h0, dropSpaces_all (c :: cs).reverse
      (by intro x hx; exact hns x (List.mem_reverse.mp hx)), List.reverse_reverse]
    exact ⟨[], by simp⟩
  · rw [if_neg h0, List.reverse_append, List.reverse_reverse]
    exact ⟨(dropSpaces vd.reverse).reverse, rfl⟩

theorem keyMatch_true_of_data (key l : String) (rest : List Char)
    (hd : l.data = key.data ++ rest)
    (hne : key.data ≠ []) (hns : ∀ c ∈ key.data, goIsSpace c = false) :
    keyMatch key l = true := by
  show listPre key.data (trimChars l.data) = true
  rw [hd]
  obtain ⟨X, hX⟩ := trim_key_decomp key.data rest hne hns
  rw [hX]
  exact listPre_append_self _ _

theorem keyMatch_false_of_data (key k2 l : String) (rest : List Char)
    (hd : l.data = k2.data ++ rest)
    (hne : k2.data ≠ []) (hns : ∀ c ∈ k2.data, goIsSpace c = false)
    (h1 : listPre key.data k2.data = false) (h2 : listPre k2.data key.data = false) :
    keyMatch key l = false := by
  show listPre key.data (trimChars l.data) = false
  rw [hd]
  obtain ⟨X, hX⟩ := trim_key_decomp k2.data rest hne hns
  rw [hX]
  exact listPre_append_of_incomp _ _ _ h1 h2

theorem isHeader_false_of_data (k2 l : String) (rest : List Char)
    (hd : l.data = k2.data ++ rest)
    (hne : k2.data ≠ []) (hns : ∀ c ∈ k2.data, goIsSpace c = false)
    (h1 : listPre ['['] k2.data = false) (h2 : listPre k2.data ['['] = false) :
    isHeader l = false := by
  show (listPre ['['] (trimChars l.data) &&
    listPre ([']'] : List Char).reverse (trimChars l.data).reverse) = false
  rw [hd]
  obtain ⟨X, hX⟩ := trim_key_decomp k2.data rest hne hns
  rw [hX, listPre_append_of_incomp _ _ _ h1 h2, Bool.false_and]

theorem upsertBody_of_stable (key v : String) :
    ∀ b, stableFor key v b → upsertBody key v b = b := by
  intro b
  induction b with
  | nil => intro h; exact absurd h (by simp [stableFor])
  | cons l rest ih =>
    intro h
    simp only [stableFor] at h
    obtain ⟨hh, hc⟩ := h
    rcases hc with ⟨hm, rfl⟩ | ⟨hm, hs⟩
    · simp [upsertBody, hh, hm]
    · simp [upsertBody, hh, hm, ih hs]

theorem stable_after (key v : String) (hm : keyMatch key v = true)
    (hh : isHeader v = false) :
    ∀ b, stableFor key v (upsertBody key v b) := by
  intro b
  induction b with
  | nil => simp [upsertBody, stableFor, hm, hh]
  | cons l rest ih =>
    by_cases h1 : isHeader l = true
    · simp [upsertBody, h1, stableFor, hm, hh]
    · rw [Bool.not_eq_true] at h1
      by_cases h2 : keyMatch key l = true
      · simp [upsertBody, h1, h2, stableFor, hm, hh]
      · rw [Bool.not_eq_true] at h2
        simp only [upsertBody, h1, h2, Bool.false_eq_true, if_false]
        exact ⟨h1, Or.inr ⟨h2, ih⟩⟩

theorem stable_preserved (key v key2 w : String)
    (hw : isHeader w = false) (hkw : keyMatch key w = false)
    (hinc : ∀ l, keyMatch key2 l = true → keyMatch key l = false) :
    ∀ b, stableFor key v b → stableFor key v (upsertBody key2 w b) := by
  intro b
  induction b with
  | nil => intro h; exact absurd h (by simp [stableFor])
  | cons l rest ih =>
    intro h
    simp only [stableFor] at h
    obtain ⟨hh, hc⟩ := h
    by_cases h2 : keyMatch key2 l = true
    · have hkl : keyMatch key l = false := hinc l h2
      have hs : stableFor key v rest := by
        rcases hc with ⟨hm, _⟩ | ⟨_, hs⟩
        · rw [hm] at hkl; exact absurd hkl (by simp)
        · exact hs
      simp only [upsertBody, hh, Bool.false_eq_true, if_false, h2, if_true]
      exact ⟨hw, Or.inr ⟨hkw, hs⟩⟩
    · rw [Bool.not_eq_true] at h2
      simp only [upsertBody, hh, Bool.false_eq_true, if_false, h2]
      rcases hc with ⟨hm, hlv⟩ | ⟨hm, hs⟩
      · exact ⟨hh, Or.inl ⟨hm, hlv⟩⟩
      · exact ⟨hh, Or.inr ⟨hm, ih hs⟩⟩

theorem upsertLines_found (sec key new : String) :
    ∀ (P : List String) (h : String) (b : List String),
      (∀ l ∈ P, goTrim l ≠ sec) → goTrim h = sec →
      upsertLines sec key new (P ++ h :: b) = P ++ h :: upsertBody key new b := by
  intro P
  induction P with
  | nil => intro h b _ hh; simp [upsertLines, hh]
  | cons p ps ih =>
    intro h b hP hh
    have hp : goTrim p ≠ sec := hP p (by simp)
    simp [upsertLines, hp, ih h b (fun l hl => hP l (by simp [hl])) hh]

theorem exists_first_sec (sec : String) :
    ∀ ls : List String, (∃ l ∈ ls, goTrim l = sec) →
      ∃ P h b, ls = P ++ h :: b ∧ goTrim h = sec ∧ ∀ l ∈ P, goTrim l ≠ sec := by
  intro ls
  induction ls with
  | nil => intro h; simp at h
  | cons x rest ih =>
    intro hex
    by_cases hx : goTrim x = sec
    · exact ⟨[], x, rest, by simp, hx, by simp⟩
    · have hr : ∃ l ∈ rest, goTrim l = sec := by
        rcases hex with ⟨l, hl, he⟩
        rcases List.mem_cons.mp hl with rfl | hl'
        · exact absurd he hx
        · exact ⟨l, hl', he⟩
      obtain ⟨P, h, b, hdec, hh, hP⟩ := ih hr
      refine ⟨x :: P, h, b, by rw [hdec]; rfl, hh, ?_⟩
      intro l hl
      rcases List.mem_cons.mp hl with rfl | hl'
      · exact hx
      · exact hP l hl'

theorem hasNetworkSection_iff :
    ∀ ls, hasNetworkSection ls = true ↔ ∃ l ∈ ls, goTrim l = "[Network]" := by
  intro ls
  induction ls with
  | nil => simp [hasNetworkSection]
  | cons x rest ih =>
    by_cases hx : goTrim x = "[Network]"
    · simp [hasNetworkSection, hx]
    · simp [hasNetworkSection, hx, ih]

theorem ensure_exists (ls : List String) :
    ∃ l ∈ ensureNetworkSection ls, goTrim l = "[Network]" := by
  by_cases h : hasNetworkSection ls = true
  · rw [ensureNetworkSection, if_pos h]
    exact (hasNetworkSection_iff ls).mp h
  · rw [ensureNetworkSection, if_neg h]
    exact ⟨"[Network]", by simp, by decide⟩

theorem ensure_of_exists (ls : List String)
    (h : ∃ l ∈ ls, goTrim l = "[Network]") : ensureNetworkSection ls = ls := by
  unfold ensureNetworkSection
  rw [if_pos ((hasNetworkSection_iff ls).mpr h)]

theorem upsertInSection_ne (lines : List String) (sec key new : String)
    (h : new ≠ "") : upsertInSection lines sec key new = upsertLines sec key new lines :=
  if_neg h

theorem listPre_decomp : ∀ p l : List Char, listPre p l = true → ∃ X, l = p ++ X
  | [], l, _ => ⟨l, rfl⟩
  | _ :: _, [], h => by simp [listPre] at h
  | p :: ps, c :: cs, h => by
    by_cases he : p = c
    · subst he
      simp only [listPre, if_pos rfl] at h
      obtain ⟨X, hX⟩ := listPre_decomp ps cs h
      exact ⟨X, by rw [hX]; rfl⟩
    · simp [listPre, he] at h

/-- Two keys neither of which is a prefix of the other never match the same
line. -/
theorem keyMatch_incomp (key key2 : String)
    (h1 : listPre key.data key2.data = false) (h2 : listPre key2.data key.data = false)
    (l : String) (hm : keyMatch key2 l = true) : keyMatch key l = false := by
  have hm' : listPre key2.data (trimChars l.data) = true := hm
  obtain ⟨X, hX⟩ := listPre_decomp _ _ hm'
  show listPre key.data (trimChars l.data) = false
  rw [hX]
  exact listPre_append_of_incomp _ _ _ h1 h2

theorem matchCount_upsertBody_self (key v : String) (hm : keyMatch key v = true)
    (hh : isHeader v = false) :
    ∀ b, matchCount key (upsertBody key v b) = max 1 (matchCount key b) := by
  intro b
  induction b with
  | nil => simp [upsertBody, matchCount, hm, hh]
  | cons l rest ih =>
    by_cases h1 : isHeader l = true
    · simp [upsertBody, h1, matchCount, hm, hh]
    · rw [Bool.not_eq_true] at h1
      by_cases h2 : keyMatch key l = true
      · simp only [upsertBody, h1, Bool.false_eq_true, if_false, h2, if_true,
          matchCount, hm, hh]
        omega
      · rw [Bool.not_eq_true] at h2
        simp only [upsertBody, h1, Bool.false_eq_true, if_false, h2,
          matchCount, ih]
        omega

theorem matchCount_upsertBody_other (key key2 w : String)
    (hkw : keyMatch key w = false) (hw : isHeader w = false)
    (hinc : ∀ l, keyMatch key2 l = true → keyMatch key l = false) :
    ∀ b, matchCount key (upsertBody key2 w b) = matchCount key b := by
  intro b
  induction b with
  | nil => simp [upsertBody, matchCount, hkw, hw]
  | cons l rest ih =>
    by_cases h1 : isHeader l = true
    · simp [upsertBody, h1, matchCount, hkw, hw]
    · rw [Bool.not_eq_true] at h1
      by_cases h2 : keyMatch key2 l = true
      · have hkl := hinc l h2
        simp [upsertBody, h1, h2, matchCount, hkw, hw, hkl]
      · rw [Bool.not_eq_true] at h2
        simp [upsertBody, h1, h2, matchCount, ih]

theorem sectionKeyCount_decomp (sec key : String) :
    ∀ (P : List String) (h : String) (b : List String),
      (∀ l ∈ P, goTrim l ≠ sec) → goTrim h = sec →
      sectionKeyCount sec key (P ++ h :: b) = matchCount key b := by
  intro P
  induction P with
  | nil => intro h b _ hh; simp [sectionKeyCount, hh]
  | cons p ps ih =>
    intro h b hP hh
    have hp : goTrim p ≠ sec := hP p (by simp)
    simp [sectionKeyCount, hp, ih h b (fun l hl => hP l (by simp [hl])) hh]

theorem sectionKeyCount_zero (sec key : String) :
    ∀ ls, (∀ l ∈ ls, goTrim l ≠ sec) → sectionKeyCount sec key ls = 0 := by
  intro ls
  induction ls with
  | nil => intro _; rfl
  | cons x rest ih =>
    intro h
    simp [sectionKeyCount, h x (by simp), ih (fun l hl => h l (by simp [hl]))]

/-- Decomposition of the file after the ensure-[Network] step: a clean
prefix, the first [Network] header, and the section body; the body carries
exactly the section key count of the original file. -/
theorem ensure_decomp (lines : List String) :
    ∃ P h b, ensureNetworkSection lines = P ++ h :: b ∧ goTrim h = "[Network]" ∧
      (∀ l ∈ P, goTrim l ≠ "[Network]") ∧
      ∀ key, sectionKeyCount "[Network]" key lines = matchCount key b := by
  by_cases hc : hasNetworkSection lines = true
  · obtain ⟨P, h, b, hdec, hh, hP⟩ :=
      exists_first_sec "[Network]" lines ((hasNetworkSection_iff lines).mp hc)
    refine ⟨P, h, b, ?_, hh, hP, ?_⟩
    · rw [ensure_of_exists lines ((hasNetworkSection_iff lines).mp hc), hdec]
    · intro key; rw [hdec]; exact sectionKeyCount_decomp _ _ P h b hP hh
  · have hno : ∀ l ∈ lines, goTrim l ≠ "[Network]" := by
      intro l hl he
      exact hc ((hasNetworkSection_iff lines).mpr ⟨l, hl, he⟩)
    refine ⟨lines ++ [""], "[Network]", [], ?_, by decide, ?_, ?_⟩
    · rw [ensureNetworkSection, if_neg hc]; simp
    · intro l hl
      rcases List.mem_append.mp hl with h1 | h1
      · exact hno l h1
      · simp only [List.mem_singleton] at h1
        subst h1; decide
    · intro key
      rw [sectionKeyCount_zero _ _ lines hno]; rfl

theorem addrLineFor_data (ip mask : String) (h : ip ≠ "") :
    ∃ rest, (addrLineFor ip mask).data = "Address=".data ++ rest := by
  unfold addrLineFor
  rw [if_neg h]
  by_cases h1 : mask = ""
  · rw [if_pos h1]; exact ⟨ip.data, rfl⟩
  · rw [if_neg h1]
    by_cases h2 : maskToPfx mask > 0
    · rw [if_pos h2]
      refine ⟨ip.data ++ "/".data ++ (Nat.repr (maskToPfx mask)).data, ?_⟩
      simp [data_append, List.append_assoc]
    · rw [if_neg h2]; exact ⟨ip.data, rfl⟩

/-- Shape of the static rewrite once the section location is fixed: the
file becomes clean prefix, header, and the four upserts applied to the
section body. -/
theorem applyStatic_decomp (lines : List String) (ip mask gw dns : String)
    (hip : ip ≠ "") (hgw : gw ≠ "") (hdns : dns ≠ "")
    (P : List String) (h : String) (b : List String)
    (hens : ensureNetworkSection lines = P ++ h :: b)
    (hP : ∀ l ∈ P, goTrim l ≠ "[Network]") (hh : goTrim h = "[Network]") :
    applyStaticLines lines ip mask gw dns =
      P ++ h :: upsertBody "DHCP=" "DHCP=no"
        (upsertBody "DNS=" ("DNS=" ++ dns)
          (upsertBody "Gateway=" ("Gateway=" ++ gw)
            (upsertBody "Address=" (addrLineFor ip mask) b))) := by
  obtain ⟨arest, ha⟩ := addrLineFor_data ip mask hip
  have hane : addrLineFor ip mask ≠ "" :=
    ne_empty_of_data _ _ _ ha (by decide)
  have hgne : ("Gateway=" ++ gw) ≠ "" :=
    ne_empty_of_data _ "Gateway=".data gw.data (data_append _ _) (by decide)
  have hdne : ("DNS=" ++ dns) ≠ "" :=
    ne_empty_of_data _ "DNS=".data dns.data (data_append _ _) (by decide)
  have e1 : (if gw = "" then "" else "Gateway=" ++ gw) = "Gateway=" ++ gw := if_neg hgw
  have e2 : (if dns = "" then "" else "DNS=" ++ dns) = "DNS=" ++ dns := if_neg hdns
  show upsertInSection
      (upsertInSection
        (upsertInSection
          (upsertInSection (ensureNetworkSection lines) "[Network]" "Address="
            (addrLineFor ip mask))
          "[Network]" "Gateway=" (if gw = "" then "" else "Gateway=" ++ gw))
        "[Network]" "DNS=" (if dns = "" then "" else "DNS=" ++ dns))
      "[Network]" "DHCP=" "DHCP=no" = _
  rw [e1, e2, hens,
    upsertInSection_ne _ _ _ _ hane, upsertLines_found _ _ _ P h b hP hh,
    upsertInSection_ne _ _ _ _ hgne, upsertLines_found _ _ _ P h _ hP hh,
    upsertInSection_ne _ _ _ _ hdne, upsertLines_found _ _ _ P h _ hP hh,
    upsertInSection_ne _ _ _ _ (by decide : ("DHCP=no" : String) ≠ ""),
    upsertLines_found _ _ _ P h _ hP hh]

/-- C1: the pure static rewrite of applySystemdNetworkConfig is idempotent
for any non-empty ip, mask, gateway and dns: a second application returns
the same line list, hence byte-identical rendered content; and it never
duplicates a targeted key inside the [Network] section — the section's
count of each targeted key after the rewrite is max 1 (count before), so a
section holding each key at most once keeps exactly one line per key. -/
theorem C1_static_apply_idempotent
    (lines : List String) (ip mask gw dns : String)
    (hip : ip ≠ "") (hmask : mask ≠ "") (hgw : gw ≠ "") (hdns : dns ≠ "") :
    applyStaticLines (applyStaticLines lines ip mask gw dns) ip mask gw dns =
        applyStaticLines lines ip mask gw dns ∧
      renderLines
          (applyStaticLines (applyStaticLines lines ip mask gw dns) ip mask gw dns) =
        renderLines (applyStaticLines lines ip mask gw dns) ∧
      ∀ key ∈ (["Address=", "Gateway=", "DNS=", "DHCP="] : List String),
        sectionKeyCount "[Network]" key (applyStaticLines lines ip mask gw dns) =
          max 1 (sectionKeyCount "[Network]" key lines) := by
  obtain ⟨arest, ha⟩ := addrLineFor_data ip mask hip
  have hgdata : ("Gateway=" ++ gw).data = "Gateway=".data ++ gw.data := data_append _ _
  have hddata : ("DNS=" ++ dns).data = "DNS=".data ++ dns.data := data_append _ _
  have haA : keyMatch "Address=" (addrLineFor ip mask) = true :=
    keyMatch_true_of_data _ _ _ ha (by decide) (by decide)
  have haHdr : isHeader (addrLineFor ip mask) = false :=
    isHeader_false_of_data "Address=" _ _ ha (by decide) (by decide) (by decide) (by decide)
  have haG : keyMatch "Gateway=" (addrLineFor ip mask) = false :=
    keyMatch_false_of_data "Gateway=" "Address=" _ _ ha (by decide) (by decide)
      (by decide) (by decide)
  have haD : keyMatch "DNS=" (addrLineFor ip mask) = false :=
    keyMatch_false_of_data "DNS=" "Address=" _ _ ha (by decide) (by decide)
      (by decide) (by decide)
  have haH : keyMatch "DHCP=" (addrLineFor ip mask) = false :=
    keyMatch_false_of_data "DHCP=" "Address=" _ _ ha (by decide) (by decide)
      (by decide) (by decide)
  have hgG : keyMatch "Gateway=" ("Gateway=" ++ gw) = true :=
    keyMatch_true_of_data _ _ _ hgdata (by decide) (by decide)
  have hgHdr : isHeader ("Gateway=" ++ gw) = false :=
    isHeader_false_of_data "Gateway=" _ _ hgdata (by decide) (by decide)
      (by decide) (by decide)
  have hgA : keyMatch "Address=" ("Gateway=" ++ gw) = false :=
    keyMatch_false_of_data "Address=" "Gateway=" _ _ hgdata (by decide) (by decide)
      (by decide) (by decide)
  have hgD : keyMatch "DNS=" ("Gateway=" ++ gw) = false :=
    keyMatch_false_of_data "DNS=" "Gateway=" _ _ hgdata (by decide) (by decide)
      (by decide) (by decide)
  have hgH : keyMatch "DHCP=" ("Gateway=" ++ gw) = false :=
    keyMatch_false_of_data "DHCP=" "Gateway=" _ _ hgdata (by decide) (by decide)
      (by decide) (by decide)
  have hdD : keyMatch "DNS=" ("DNS=" ++ dns) = true :=
    keyMatch_true_of_data _ _ _ hddata (by decide) (by decide)
  have hdHdr : isHeader ("DNS=" ++ dns) = false :=
    isHeader_false_of_data "DNS=" _ _ hddata (by decide) (by decide)
      (by decide) (by decide)
  have hdA : keyMatch "Address=" ("DNS=" ++ dns) = false :=
    keyMatch_false_of_data "Address=" "DNS=" _ _ hddata (by decide) (by decide)
      (by decide) (by decide)
  have hdG : keyMatch "Gateway=" ("DNS=" ++ dns) = false :=
    keyMatch_false_of_data "Gateway=" "DNS=" _ _ hddata (by decide) (by decide)
      (by decide) (by decide)
  have hdH : keyMatch "DHCP=" ("DNS=" ++ dns) = false :=
    keyMatch_false_of_data "DHCP=" "DNS=" _ _ hddata (by decide) (by decide)
      (by decide) (by decide)
  have hnN : keyMatch "DHCP=" "DHCP=no" = true := by decide
  have hnHdr : isHeader "DHCP=no" = false := by decide
  have hnA : keyMatch "Address=" "DHCP=no" = false := by decide
  have hnG : keyMatch "Gateway=" "DHCP=no" = false := by decide
  have hnD : keyMatch "DNS=" "DHCP=no" = false := by decide
  have incGA := keyMatch_incomp "Address=" "Gateway=" (by decide) (by decide)
  have incDA := keyMatch_incomp "Address=" "DNS=" (by decide) (by decide)
  have incHA := keyMatch_incomp "Address=" "DHCP=" (by decide) (by decide)
  have incAG := keyMatch_incomp "Gateway=" "Address=" (by decide) (by decide)
  have incDG := keyMatch_incomp "Gateway=" "DNS=" (by decide) (by decide)
  have incHG := keyMatch_incomp "Gateway=" "DHCP=" (by decide) (by decide)
  have incAD := keyMatch_incomp "DNS=" "Address=" (by decide) (by decide)
  have incGD := keyMatch_incomp "DNS=" "Gateway=" (by decide) (by decide)
  have incHD := keyMatch_incomp "DNS=" "DHCP=" (by decide) (by decide)
  have incAH := keyMatch_incomp "DHCP=" "Address=" (by decide) (by decide)
  have incGH := keyMatch_incomp "DHCP=" "Gateway=" (by decide) (by decide)
  have incDH := keyMatch_incomp "DHCP=" "DNS=" (by decide) (by decide)
  obtain ⟨P, h, b, hens, hh, hP, hcnt⟩ := ensure_decomp lines
  set a := addrLineFor ip mask with ha_def
  set g := "Gateway=" ++ gw with hg_def
  set d := "DNS=" ++ dns with hd_def
  set b1 := upsertBody "Address=" a b with hb1
  set b2 := upsertBody "Gateway=" g b1 with hb2
  set b3 := upsertBody "DNS=" d b2 with hb3
  set b4 := upsertBody "DHCP=" "DHCP=no" b3 with hb4
  have s1 : stableFor "Address=" a b1 := stable_after _ _ haA haHdr b
  have s2 : stableFor "Address=" a b2 :=
    stable_preserved _ _ "Gateway=" g hgHdr hgA incGA b1 s1
  have s3 : stableFor "Address=" a b3 :=
    stable_preserved _ _ "DNS=" d hdHdr hdA incDA b2 s2
  have s4 : stableFor "Address=" a b4 :=
    stable_preserved _ _ "DHCP=" "DHCP=no" hnHdr hnA incHA b3 s3
  have eqA : upsertBody "Address=" a b4 = b4 := upsertBody_of_stable _ _ b4 s4
  have t2 : stableFor "Gateway=" g b2 := stable_after _ _ hgG hgHdr b1
  have t3 : stableFor "Gateway=" g b3 :=
    stable_preserved _ _ "DNS=" d hdHdr hdG incDG b2 t2
  have t4 : stableFor "Gateway=" g b4 :=
    stable_preserved _ _ "DHCP=" "DHCP=no" hnHdr hnG incHG b3 t3
  have eqG : upsertBody "Gateway=" g b4 = b4 := upsertBody_of_stable _ _ b4 t4
  have u3 : stableFor "DNS=" d b3 := stable_after _ _ hdD hdHdr b2
  have u4 : stableFor "DNS=" d b4 :=
    stable_preserved _ _ "DHCP=" "DHCP=no" hnHdr hnD incHD b3 u3
  have eqD : upsertBody "DNS=" d b4 = b4 := upsertBody_of_stable _ _ b4 u4
  have v4 : stableFor "DHCP=" "DHCP=no" b4 := stable_after _ _ hnN hnHdr b3
  have eqH : upsertBody "DHCP=" "DHCP=no" b4 = b4 := upsertBody_of_stable _ _ b4 v4
  have happ1 : applyStaticLines lines ip mask gw dns = P ++ h :: b4 :=
    applyStatic_decomp lines ip mask gw dns hip hgw hdns P h b hens hP hh
  have hmem2 : ∃ l ∈ P ++ h :: b4, goTrim l = "[Network]" := ⟨h, by simp, hh⟩
  have hens2 : ensureNetworkSection (P ++ h :: b4) = P ++ h :: b4 :=
    ensure_of_exists _ hmem2
  have happ2 : applyStaticLines (P ++ h :: b4) ip mask gw dns =
      P ++ h :: upsertBody "DHCP=" "DHCP=no"
        (upsertBody "DNS=" d (upsertBody "Gateway=" g (upsertBody "Address=" a b4))) :=
    applyStatic_decomp _ ip mask gw dns hip hgw hdns P h b4 hens2 hP hh
  have hfix : upsertBody "DHCP=" "DHCP=no"
      (upsertBody "DNS=" d (upsertBody "Gateway=" g (upsertBody "Address=" a b4))) = b4 := by
    rw [eqA, eqG, eqD, eqH]
  refine ⟨?_, ?_, ?_⟩
  · rw [happ1, happ2, hfix]
  · rw [happ1, happ2, hfix]
  · intro key hkey
    rw [happ1, sectionKeyCount_decomp _ _ P h b4 hP hh, hcnt key, hb4, hb3, hb2, hb1]
    fin_cases hkey
    · rw [matchCount_upsertBody_other "Address=" "DHCP=" "DHCP=no" hnA hnHdr incHA,
        matchCount_upsertBody_other "Address=" "DNS=" d hdA hdHdr incDA,
        matchCount_upsertBody_other "Address=" "Gateway=" g hgA hgHdr incGA,
        matchCount_upsertBody_self "Address=" a haA haHdr]
    · rw [matchCount_upsertBody_other "Gateway=" "DHCP=" "DHCP=no" hnG hnHdr incHG,
        matchCount_upsertBody_other "Gateway=" "DNS=" d hdG hdHdr incDG,
        matchCount_upsertBody_self "Gateway=" g hgG hgHdr,
        matchCount_upsertBody_other "Gateway=" "Address=" a haG haHdr incAG]
    · rw [matchCount_upsertBody_other "DNS=" "DHCP=" "DHCP=no" hnD hnHdr incHD,
        matchCount_upsertBody_self "DNS=" d hdD hdHdr,
        matchCount_upsertBody_other "DNS=" "Gateway=" g hgD hgHdr incGD,
        matchCount_upsertBody_other "DNS=" "Address=" a haD haHdr incAD]
    · rw [matchCount_upsertBody_self "DHCP=" "DHCP=no" hnN hnHdr,
        matchCount_upsertBody_other "DHCP=" "DNS=" d hdH hdHdr incDH,
        matchCount_upsertBody_other "DHCP=" "Gateway=" g hgH hgHdr incGH,
        matchCount_upsertBody_other "DHCP=" "Address=" a haH haHdr incAH]

/-- Witness for C1 at the fresh-template file and the scenario intent. -/
theorem C1_static_apply_idempotent_witness :
    applyStaticLines
        (applyStaticLines ["[Match]", "Name=eth0", "", "[Network]"]
          "192.168.1.50" "255.255.255.0" "192.168.1.1" "8.8.8.8")
        "192.168.1.50" "255.255.255.0" "192.168.1.1" "8.8.8.8" =
      applyStaticLines ["[Match]", "Name=eth0", "", "[Network]"]
        "192.168.1.50" "255.255.255.0" "192.168.1.1" "8.8.8.8" :=
  (C1_static_apply_idempotent ["[Match]", "Name=eth0", "", "[Network]"]
    "192.168.1.50" "255.255.255.0" "192.168.1.1" "8.8.8.8"
    (by decide) (by decide) (by decide) (by decide)).1

theorem isHeader_of_trim_eq (l s : String) (h : goTrim l = s)
    (hs1 : goStarts s "[" = true) (hs2 : goEnds s "]" = true) : isHeader l = true := by
  unfold isHeader
  rw [h, hs1, hs2]
  rfl

theorem sectionSpan_upsertBody (s key new : String)
    (hnew : isHeader new = false)
    (hs1 : goStarts s "[" = true) (hs2 : goEnds s "]" = true) :
    ∀ b, sectionSpan s (upsertBody key new b) = sectionSpan s b := by
  have hns : goTrim new ≠ s := by
    intro he
    exact absurd (isHeader_of_trim_eq new s he hs1 hs2) (by simp [hnew])
  intro b
  induction b with
  | nil => simp [upsertBody, sectionSpan, hns]
  | cons l rest ih =>
    by_cases h1 : isHeader l = true
    · simp [upsertBody, h1, sectionSpan, hns]
    · rw [Bool.not_eq_true] at h1
      have hls : goTrim l ≠ s := by
        intro he
        have hh := isHeader_of_trim_eq l s he hs1 hs2
        rw [hh] at h1
        simp at h1
      by_cases h2 : keyMatch key l = true
      · simp [upsertBody, h1, h2, sectionSpan, hns, hls]
      · rw [Bool.not_eq_true] at h2
        simp [upsertBody, h1, h2, sectionSpan, hls, ih]

theorem takeToHeader_upsertLines (sec key new : String)
    (hsec1 : goStarts sec "[" = true) (hsec2 : goEnds sec "]" = true) :
    ∀ rest, (∃ l ∈ rest, goTrim l = sec) →
      takeToHeader (upsertLines sec key new rest) = takeToHeader rest := by
  intro rest
  induction rest with
  | nil => intro h; simp at h
  | cons r rs ih =>
    intro hex
    by_cases hr : goTrim r = sec
    · have hrh : isHeader r = true := isHeader_of_trim_eq r sec hr hsec1 hsec2
      simp [upsertLines, hr, takeToHeader, hrh]
    · have hex' : ∃ l ∈ rs, goTrim l = sec := by
        rcases hex with ⟨l, hl, he⟩
        rcases List.mem_cons.mp hl with rfl | hmem
        · exact absurd he hr
        · exact ⟨l, hmem, he⟩
      by_cases hrh : isHeader r = true
      · simp [upsertLines, hr, takeToHeader, hrh]
      · rw [Bool.not_eq_true] at hrh
        simp [upsertLines, hr, takeToHeader, hrh, ih hex']

theorem sectionSpan_upsertLines (s sec key new : String)
    (hdiff : s ≠ sec) (hnew : isHeader new = false)
    (hs1 : goStarts s "[" = true) (hs2 : goEnds s "]" = true)
    (hsec1 : goStarts sec "[" = true) (hsec2 : goEnds sec "]" = true) :
    ∀ ls, (∃ l ∈ ls, goTrim l = sec) →
      sectionSpan s (upsertLines sec key new ls) = sectionSpan s ls := by
  intro ls
  induction ls with
  | nil => intro h; simp at h
  | cons l rest ih =>
    intro hex
    by_cases hl : goTrim l = sec
    · have hlns : goTrim l ≠ s := by rw [hl]; exact fun he => hdiff he.symm
      simp [upsertLines, hl, sectionSpan, hlns, Ne.symm hdiff,
        sectionSpan_upsertBody s key new hnew hs1 hs2 rest]
    · have hex' : ∃ x ∈ rest, goTrim x = sec := by
        rcases hex with ⟨x, hx, he⟩
        rcases List.mem_cons.mp hx with rfl | hmem
        · exact absurd he hl
        · exact ⟨x, hmem, he⟩
      by_cases hls : goTrim l = s
      · simp [upsertLines, hl, sectionSpan, hls, hdiff,
          takeToHeader_upsertLines sec key new hsec1 hsec2 rest hex']
      · simp [upsertLines, hl, sectionSpan, hls, ih hex']

theorem upsertBody_frame (key new : String) :
    ∀ b, (∃ A m B, b = A ++ m :: B ∧ keyMatch key m = true ∧ isHeader m = false ∧
            upsertBody key new b = A ++ new :: B) ∨
         (∃ A B, b = A ++ B ∧ upsertBody key new b = A ++ new :: B) := by
  intro b
  induction b with
  | nil => exact Or.inr ⟨[], [], rfl, rfl⟩
  | cons l rest ih =>
    by_cases h1 : isHeader l = true
    · refine Or.inr ⟨[], l :: rest, rfl, ?_⟩
      simp [upsertBody, h1]
    · rw [Bool.not_eq_true] at h1
      by_cases h2 : keyMatch key l = true
      · refine Or.inl ⟨[], l, rest, rfl, h2, h1, ?_⟩
        simp [upsertBody, h1, h2]
      · rw [Bool.not_eq_true] at h2
        have hstep : upsertBody key new (l :: rest) = l :: upsertBody key new rest := by
          simp [upsertBody, h1, h2]
        rcases ih with ⟨A, m, B, hb, hm, hmh, hres⟩ | ⟨A, B, hb, hres⟩
        · exact Or.inl ⟨l :: A, m, B, by rw [hb]; rfl, hm, hmh,
            by rw [hstep, hres]; rfl⟩
        · exact Or.inr ⟨l :: A, B, by rw [hb]; rfl, by rw [hstep, hres]; rfl⟩

theorem upsert_frame (lines : List String) (sec key new : String) (hne : new ≠ "") :
    (∃ A m B, lines = A ++ m :: B ∧ keyMatch key m = true ∧ isHeader m = false ∧
        upsertInSection lines sec key new = A ++ new :: B) ∨
      (∃ A B, lines = A ++ B ∧ upsertInSection lines sec key new = A ++ new :: B) ∨
      (upsertInSection lines sec key new = lines ++ ["", sec, new] ∧
        ∀ l ∈ lines, goTrim l ≠ sec) := by
  rw [upsertInSection_ne _ _ _ _ hne]
  induction lines with
  | nil => exact Or.inr (Or.inr ⟨rfl, by simp⟩)
  | cons l rest ih =>
    by_cases hl : goTrim l = sec
    · have hstep : upsertLines sec key new (l :: rest) = l :: upsertBody key new rest := by
        simp [upsertLines, hl]
      rcases upsertBody_frame key new rest with
        ⟨A, m, B, hb, hm, hmh, hres⟩ | ⟨A, B, hb, hres⟩
      · exact Or.inl ⟨l :: A, m, B, by rw [hb]; rfl, hm, hmh,
          by rw [hstep, hres]; rfl⟩
      · exact Or.inr (Or.inl ⟨l :: A, B, by rw [hb]; rfl, by rw [hstep, hres]; rfl⟩)
    · have hstep : upsertLines sec key new (l :: rest) = l :: upsertLines sec key new rest := by
        simp [upsertLines, hl]
      rcases ih with ⟨A, m, B, hb, hm, hmh, hres⟩ | ⟨A, B, hb, hres⟩ | ⟨hres, hclean⟩
      · exact Or.inl ⟨l :: A, m, B, by rw [hb]; rfl, hm, hmh,
          by rw [hstep, hres]; rfl⟩
      · exact Or.inr (Or.inl ⟨l :: A, B, by rw [hb]; rfl, by rw [hstep, hres]; rfl⟩)
      · refine Or.inr (Or.inr ⟨by rw [hstep, hres]; rfl, ?_⟩)
        intro x hx
        rcases List.mem_cons.mp hx with rfl | hx'
        · exact hl
        · exact hclean x hx'

/-- C2 counterexample: with the header-shaped replacement line [B] upserted
into section [A], the pre-existing section [B] changes content (its span
goes from the line x to empty), so the claim as stated — every line list,
section header, key prefix and non-empty replacement line — is false. -/
theorem C2_upsert_locality_counterexample :
    sectionSpan "[B]" (upsertInSection ["[A]", "[B]", "x"] "[A]" "K" "[B]") ≠
      sectionSpan "[B]" ["[A]", "[B]", "x"] := by decide

/-- C2 amended: for a non-empty replacement line that is not itself a
section header, and bracket-shaped section names, upserting into a
pre-existing target section preserves the content (hence line count) of
every other section; and in full generality the rewrite either replaces
exactly one non-header key-matching line, inserts exactly one line keeping
all other lines in order, or (when the target section is absent) appends a
blank separator, the header and the line at end of file. -/
theorem C2_upsert_locality_amended (lines : List String) (sec key new s : String)
    (hne : new ≠ "") (hnew : isHeader new = false)
    (hs1 : goStarts s "[" = true) (hs2 : goEnds s "]" = true)
    (hsec1 : goStarts sec "[" = true) (hsec2 : goEnds sec "]" = true)
    (hdiff : s ≠ sec) (hpre : ∃ l ∈ lines, goTrim l = sec) :
    sectionSpan s (upsertInSection lines sec key new) = sectionSpan s lines ∧
      ((∃ A m B, lines = A ++ m :: B ∧ keyMatch key m = true ∧ isHeader m = false ∧
          upsertInSection lines sec key new = A ++ new :: B) ∨
        (∃ A B, lines = A ++ B ∧ upsertInSection lines sec key new = A ++ new :: B) ∨
        (upsertInSection lines sec key new = lines ++ ["", sec, new] ∧
          ∀ l ∈ lines, goTrim l ≠ sec)) := by
  constructor
  · rw [upsertInSection_ne _ _ _ _ hne]
    exact sectionSpan_upsertLines s sec key new hdiff hnew hs1 hs2 hsec1 hsec2 lines hpre
  · exact upsert_frame lines sec key new hne

/-- Witness for the amended C2 on a two-section file. -/
theorem C2_upsert_locality_witness :
    sectionSpan "[Other]"
        (upsertInSection ["[Other]", "X=1", "", "[Network]", "Address=old"]
          "[Network]" "Address=" "Address=new") =
      sectionSpan "[Other]" ["[Other]", "X=1", "", "[Network]", "Address=old"] :=
  (C2_upsert_locality_amended ["[Other]", "X=1", "", "[Network]", "Address=old"]
    "[Network]" "Address=" "Address=new" "[Other]"
    (by decide) (by decide) (by decide) (by decide) (by decide) (by decide)
    (by decide) (by decide)).1

theorem hasSubList_iff : ∀ pat l : List Char,
    hasSubList pat l = true ↔ ∃ A B, l = A ++ pat ++ B := by
  intro pat l
  induction l with
  | nil =>
    constructor
    · intro h
      cases pat with
      | nil => exact ⟨[], [], rfl⟩
      | cons p ps => simp [hasSubList, listPre] at h
    · rintro ⟨A, B, hAB⟩
      obtain ⟨hAp, hB⟩ := List.append_eq_nil.mp hAB.symm
      obtain ⟨hA, hp⟩ := List.append_eq_nil.mp hAp
      subst hp
      decide
    | cons c cs ih =>
      simp only [hasSubList, Bool.or_eq_true, ih]
      constructor
      · rintro (h | ⟨A, B, hAB⟩)
        · obtain ⟨X, hX⟩ := listPre_decomp pat (c :: cs) h
          exact ⟨[], X, by rw [hX]; simp⟩
        · exact ⟨c :: A, B, by rw [hAB]; rfl⟩
      · rintro ⟨A, B, hAB⟩
        cases A with
        | nil =>
          left
          rw [show c :: cs = pat ++ B from by simpa using hAB]
          exact listPre_append_self pat B
        | cons a as =>
          right
          rw [List.cons_append, List.cons_append] at hAB
          injection hAB with h1 h2
          exact ⟨as, B, h2⟩

theorem listPre_append_sep (sep : Char) : ∀ pat X B : List Char, sep ∉ pat →
    listPre pat (X ++ sep :: B) = listPre pat X
  | [], X, B, _ => by simp [listPre]
  | p :: ps, [], B, hs => by
    have hne : p ≠ sep := fun he => hs (by rw [he]; exact List.mem_cons_self _ _)
    simp [listPre, hne]
  | p :: ps, x :: xs, B, hs => by
    by_cases he : p = x
    · subst he
      simp only [List.cons_append, listPre, if_pos rfl]
      exact listPre_append_sep sep ps xs B (fun hm => hs (List.mem_cons_of_mem _ hm))
    · simp [listPre, he]

theorem hasSubList_append_sep (pat : List Char) (sep : Char)
    (hp : pat ≠ []) (hs : sep ∉ pat) :
    ∀ A B, hasSubList pat (A ++ sep :: B) = (hasSubList pat A || hasSubList pat B) := by
  intro A
  induction A with
  | nil =>
    intro B
    obtain ⟨p, ps, rfl⟩ : ∃ p ps, pat = p :: ps := by
      cases pat with
      | nil => exact absurd rfl hp
      | cons p ps => exact ⟨p, ps, rfl⟩
    have hne : p ≠ sep := fun he => hs (by rw [he]; exact List.mem_cons_self _ _)
    simp [hasSubList, listPre, hne]
  | cons a as ih =>
    intro B
    rw [List.cons_append]
    simp only [hasSubList]
    rw [ih B, ← List.cons_append, listPre_append_sep sep pat (a :: as) B hs,
      Bool.or_assoc]

theorem splitOnChar_ne_nil (c : Char) : ∀ l, splitOnChar c l ≠ []
  | [] => by simp [splitOnChar]
  | x :: xs => by
    simp only [splitOnChar]
    by_cases h : x = c
    · simp [h]
    · rw [if_neg h]
      cases hS : splitOnChar c xs with
      | nil => simp
      | cons s rest => simp

theorem splitOnChar_head_pre (c : Char) :
    ∀ l s rest, splitOnChar c l = s :: rest → ∃ B, l = s ++ B := by
  intro l
  induction l with
  | nil =>
    intro s rest h
    simp only [splitOnChar] at h
    injection h with h1 h2
    exact ⟨[], by rw [← h1]; rfl⟩
  | cons x xs ih =>
    intro s rest h
    simp only [splitOnChar] at h
    by_cases hx : x = c
    · rw [if_pos hx] at h
      injection h with h1 h2
      exact ⟨x :: xs, by rw [← h1]; rfl⟩
    · rw [if_neg hx] at h
      cases hS : splitOnChar c xs with
      | nil => exact absurd hS (splitOnChar_ne_nil c xs)
      | cons u rest' =>
        rw [hS] at h
        injection h with h1 h2
        obtain ⟨B, hB⟩ := ih u rest' hS
        exact ⟨B, by rw [← h1, hB]; rfl⟩

theorem splitOnChar_mem_infix (c : Char) :
    ∀ l p, p ∈ splitOnChar c l → ∃ A B, l = A ++ p ++ B := by
  intro l
  induction l with
  | nil =>
    intro p hp
    simp only [splitOnChar, List.mem_singleton] at hp
    exact ⟨[], [], by rw [hp]; rfl⟩
  | cons x xs ih =>
    intro p hp
    simp only [splitOnChar] at hp
    by_cases h : x = c
    · rw [if_pos h] at hp
      rcases List.mem_cons.mp hp with rfl | hp'
      · exact ⟨[], x :: xs, by simp⟩
      · obtain ⟨A, B, hAB⟩ := ih p hp'
        exact ⟨x :: A, B, by rw [hAB]; rfl⟩
    · rw [if_neg h] at hp
      cases hS : splitOnChar c xs with
      | nil => exact absurd hS (splitOnChar_ne_nil c xs)
      | cons s rest =>
        rw [hS] at hp
        rcases List.mem_cons.mp hp with rfl | hp'
        · obtain ⟨B, hB⟩ := splitOnChar_head_pre c xs s rest hS
          exact ⟨[], B, by rw [hB]; rfl⟩
        · obtain ⟨A, B, hAB⟩ := ih p (by rw [hS]; exact List.mem_cons_of_mem _ hp')
          exact ⟨x :: A, B, by rw [hAB]; rfl⟩

theorem mem_upsertBody_new (key new : String) : ∀ b, new ∈ upsertBody key new b := by
  intro b
  induction b with
  | nil => simp [upsertBody]
  | cons l rest ih =>
    by_cases h1 : isHeader l = true
    · simp [upsertBody, h1]
    · rw [Bool.not_eq_true] at h1
      by_cases h2 : keyMatch key l = true
      · simp [upsertBody, h1, h2]
      · rw [Bool.not_eq_true] at h2
        simp only [upsertBody, h1, h2, Bool.false_eq_true, if_false]
        exact List.mem_cons_of_mem l ih

theorem mem_upsertLines_new (sec key new : String) :
    ∀ ls, new ∈ upsertLines sec key new ls := by
  intro ls
  induction ls with
  | nil => simp [upsertLines]
  | cons l rest ih =>
    by_cases hl : goTrim l = sec
    · simp only [upsertLines, hl, if_pos rfl]
      exact List.mem_cons_of_mem l (mem_upsertBody_new key new rest)
    · simp only [upsertLines, hl, if_false]
      exact List.mem_cons_of_mem l ih

theorem mem_upsertBody_preserved (key new x : String) (hx : keyMatch key x = false) :
    ∀ b, x ∈ b → x ∈ upsertBody key new b := by
  intro b
  induction b with
  | nil => intro h; simp at h
  | cons l rest ih =>
    intro hmem
    by_cases h1 : isHeader l = true
    · simp only [upsertBody, h1, if_true]
      exact List.mem_cons_of_mem new hmem
    · rw [Bool.not_eq_true] at h1
      by_cases h2 : keyMatch key l = true
      · simp only [upsertBody, h1, Bool.false_eq_true, if_false, h2, if_true]
        rcases List.mem_cons.mp hmem with rfl | hmem'
        · rw [h2] at hx; exact absurd hx (by simp)
        · exact List.mem_cons_of_mem new hmem'
      · rw [Bool.not_eq_true] at h2
        simp only [upsertBody, h1, h2, Bool.false_eq_true, if_false]
        rcases List.mem_cons.mp hmem with rfl | hmem'
        · exact List.mem_cons_self _ _
        · exact List.mem_cons_of_mem l (ih hmem')

theorem mem_upsert_preserved (sec key new x : String) (hx : keyMatch key x = false) :
    ∀ ls, x ∈ ls → x ∈ upsertInSection ls sec key new := by
  intro ls hmem
  unfold upsertInSection
  by_cases hne : new = ""
  · rw [if_pos hne]; exact hmem
  · rw [if_neg hne]
    clear hne
    induction ls with
    | nil => simp at hmem
    | cons l rest ih =>
      by_cases hl : goTrim l = sec
      · simp only [upsertLines, hl, if_pos rfl]
        rcases List.mem_cons.mp hmem with rfl | hmem'
        · exact List.mem_cons_self _ _
        · exact List.mem_cons_of_mem l (mem_upsertBody_preserved key new x hx rest hmem')
      · simp only [upsertLines, hl, if_false]
        rcases List.mem_cons.mp hmem with rfl | hmem'
        · exact List.mem_cons_self _ _
        · exact List.mem_cons_of_mem l (ih hmem')

/-- C4 counterexample: for the zero mask 0.0.0.0 the computed prefix is 0
and the code writes the bare line Address=ip, not Address=ip/0 as the claim
states: the /0 line is absent from the rewritten file and the bare line is
present. -/
theorem C4_address_line_counterexample :
    addrLineFor "192.168.1.50" "0.0.0.0" = "Address=192.168.1.50" ∧
      maskToPfx "0.0.0.0" = 0 ∧
      ("Address=192.168.1.50/0" ∉
        applyStaticLines ["[Match]", "Name=eth0", "", "[Network]"]
          "192.168.1.50" "0.0.0.0" "" "") ∧
      "Address=192.168.1.50" ∈
        applyStaticLines ["[Match]", "Name=eth0", "", "[Network]"]
          "192.168.1.50" "0.0.0.0" "" "" := by decide

/-- C4 amended: for non-empty ip, the address line upserted into [Network]
is Address=ip/prefix when the mask's per-byte leading-ones prefix is
positive; when the prefix computes to 0 (zero or unparseable mask) or the
mask is empty, the line is the bare Address=ip with no suffix; the computed
line is always present in the rewritten file. -/
theorem C4_address_line_amended (lines : List String) (ip mask gw dns : String)
    (hip : ip ≠ "") :
    (mask ≠ "" → 0 < maskToPfx mask →
      addrLineFor ip mask = "Address=" ++ ip ++ "/" ++ Nat.repr (maskToPfx mask)) ∧
      (mask = "" ∨ maskToPfx mask = 0 → addrLineFor ip mask = "Address=" ++ ip) ∧
      addrLineFor ip mask ∈ applyStaticLines lines ip mask gw dns := by
  refine ⟨?_, ?_, ?_⟩
  · intro h1 h2
    simp [addrLineFor, hip, h1, h2]
  · rintro (h1 | h1)
    · simp [addrLineFor, hip, h1]
    · by_cases hm : mask = ""
      · simp [addrLineFor, hip, hm]
      · simp [addrLineFor, hip, hm, h1]
  · obtain ⟨arest, ha⟩ := addrLineFor_data ip mask hip
    have hane : addrLineFor ip mask ≠ "" := ne_empty_of_data _ _ _ ha (by decide)
    have haG : keyMatch "Gateway=" (addrLineFor ip mask) = false :=
      keyMatch_false_of_data "Gateway=" "Address=" _ _ ha (by decide) (by decide)
        (by decide) (by decide)
    have haD : keyMatch "DNS=" (addrLineFor ip mask) = false :=
      keyMatch_false_of_data "DNS=" "Address=" _ _ ha (by decide) (by decide)
        (by decide) (by decide)
    have haH : keyMatch "DHCP=" (addrLineFor ip mask) = false :=
      keyMatch_false_of_data "DHCP=" "Address=" _ _ ha (by decide) (by decide)
        (by decide) (by decide)
    show addrLineFor ip mask ∈
      upsertInSection
        (upsertInSection
          (upsertInSection
            (upsertInSection (ensureNetworkSection lines) "[Network]" "Address="
              (addrLineFor ip mask))
            "[Network]" "Gateway=" (if gw = "" then "" else "Gateway=" ++ gw))
          "[Network]" "DNS=" (if dns = "" then "" else "DNS=" ++ dns))
        "[Network]" "DHCP=" "DHCP=no"
    apply mem_upsert_preserved _ _ _ _ haH
    apply mem_upsert_preserved _ _ _ _ haD
    apply mem_upsert_preserved _ _ _ _ haG
    rw [upsertInSection_ne _ _ _ _ hane]
    exact mem_upsertLines_new _ _ _ _

/-- Witness for the amended C4 on the scenario mask. -/
theorem C4_address_line_witness :
    addrLineFor "192.168.1.50" "255.255.255.0" = "Address=192.168.1.50/24" ∧
      addrLineFor "192.168.1.50" "255.255.255.0" ∈
        applyStaticLines ["[Match]"] "192.168.1.50" "255.255.255.0" "" "" := by
  have h := C4_address_line_amended ["[Match]"] "192.168.1.50" "255.255.255.0" "" ""
    (by decide)
  refine ⟨?_, h.2.2⟩
  rw [h.1 (by decide) (by decide)]
  decide

/-- C5: the CFG acknowledgment matrix.  Save failure replies
CFG_NACK|ERR=SAVE_FAILED with no network action and an unchanged record;
successful save with no DHCP flag and no parsed network field replies the
bare CFG_ACK|ID, again with no network action; when a network apply is
attempted, failure replies CFG_ACK|ID|NET_NACK while the merged record is
kept, and success replies CFG_ACK|ID|NET_ACK. -/
theorem C5_cfg_ack_matrix (existing : DeviceConfig) (deviceID msg : String)
    (applyOk : Bool) :
    (cfgStep existing deviceID msg false applyOk =
      { reply := "CFG_NACK|ERR=SAVE_FAILED", action := .noAction, record := existing }) ∧
      (hasDHCPFlag msg = false → parseNetKV msg = ⟨"", "", "", ""⟩ →
        cfgStep existing deviceID msg true applyOk =
          { reply := "CFG_ACK|ID=" ++ (cfgPatched deviceID msg).id, action := .noAction,
            record := mergeConfig existing (cfgPatched deviceID msg) }) ∧
      ((cfgStep existing deviceID msg true false).action ≠ .noAction →
        (cfgStep existing deviceID msg true false).reply =
            "CFG_ACK|ID=" ++ (cfgPatched deviceID msg).id ++ "|NET_NACK" ∧
          (cfgStep existing deviceID msg true false).record =
            mergeConfig existing (cfgPatched deviceID msg)) ∧
      ((cfgStep existing deviceID msg true true).action ≠ .noAction →
        (cfgStep existing deviceID msg true true).reply =
          "CFG_ACK|ID=" ++ (cfgPatched deviceID msg).id ++ "|NET_ACK") := by
  refine ⟨by simp [cfgStep], ?_, ?_, ?_⟩
  · intro h1 h2
    simp [cfgStep, h1, h2]
  · intro hact
    by_cases hd : hasDHCPFlag msg = true
    · constructor <;> simp [cfgStep, hd]
    · rw [Bool.not_eq_true] at hd
      by_cases hf : (parseNetKV msg).ip ≠ "" ∨ (parseNetKV msg).mask ≠ "" ∨
        (parseNetKV msg).gw ≠ "" ∨ (parseNetKV msg).dns ≠ ""
      · constructor <;> simp [cfgStep, hd, hf]
      · exact absurd (by simp [cfgStep, hd, hf]) hact
  · intro hact
    by_cases hd : hasDHCPFlag msg = true
    · simp [cfgStep, hd]
    · rw [Bool.not_eq_true] at hd
      by_cases hf : (parseNetKV msg).ip ≠ "" ∨ (parseNetKV msg).mask ≠ "" ∨
        (parseNetKV msg).gw ≠ "" ∨ (parseNetKV msg).dns ≠ ""
      · simp [cfgStep, hd, hf]
      · exact absurd (by simp [cfgStep, hd, hf]) hact

/-- Witness for C5 on concrete requests. -/
theorem C5_cfg_ack_matrix_witness :
    (cfgStep ⟨"X", "1.2.3.4", "60000"⟩ "dev" "CFG|ID=alpha" false true).reply =
        "CFG_NACK|ERR=SAVE_FAILED" ∧
      (cfgStep ⟨"X", "1.2.3.4", "60000"⟩ "dev" "CFG|ID=alpha" true true).reply =
        "CFG_ACK|ID=alpha" ∧
      (cfgStep ⟨"X", "1.2.3.4", "60000"⟩ "dev" "CFG|IP=10.0.0.2" true false).reply =
        "CFG_ACK|ID=dev|NET_NACK" ∧
      (cfgStep ⟨"X", "1.2.3.4", "60000"⟩ "dev" "CFG|IP=10.0.0.2" true true).reply =
        "CFG_ACK|ID=dev|NET_ACK" := by
  have hA := C5_cfg_ack_matrix ⟨"X", "1.2.3.4", "60000"⟩ "dev" "CFG|ID=alpha" true
  have hB := C5_cfg_ack_matrix ⟨"X", "1.2.3.4", "60000"⟩ "dev" "CFG|IP=10.0.0.2" true
  refine ⟨?_, ?_, ?_, ?_⟩
  · rw [hA.1]
  · rw [hA.2.1 (by decide) (by decide)]; decide
  · rw [(hB.2.2.1 (by decide)).1]; decide
  · rw [hB.2.2.2 (by decide)]; decide

/-- C6 counterexample: the message CFG|DHCP=10 carries a DHCP flag whose
value is 10 — not 1, yes or true — yet the dispatcher classifies it as a
DHCP apply, because hasDHCPFlag is a substring test and DHCP=10 contains
DHCP=1. -/
theorem C6_net_action_counterexample :
    netActionOf "CFG|DHCP=10" = NetAction.dhcp ∧
      specDHCPFlagPresent "CFG|DHCP=10" = false := by decide

/-- C6 amended: the DHCP apply is invoked iff the uppercased message
contains DHCP=1, DHCP=YES or DHCP=TRUE as a substring; otherwise the static
apply is invoked iff some of IP/MASK/GW/DNS parses non-empty; the CFG
branch performs exactly this classification whenever the save succeeded;
and in particular an exact pipe-delimited segment DHCP=1/DHCP=YES/DHCP=TRUE
of the uppercased message always triggers the DHCP apply. -/
theorem C6_net_action_amended (msg : String) :
    (netActionOf msg = NetAction.dhcp ↔ hasDHCPFlag msg = true) ∧
      (hasDHCPFlag msg = false →
        (netActionOf msg = NetAction.staticCfg ↔
          ((parseNetKV msg).ip ≠ "" ∨ (parseNetKV msg).mask ≠ "" ∨
            (parseNetKV msg).gw ≠ "" ∨ (parseNetKV msg).dns ≠ ""))) ∧
      (∀ (existing : DeviceConfig) (deviceID : String) (saveOk applyOk : Bool),
        (cfgStep existing deviceID msg saveOk applyOk).action =
          if saveOk = false then NetAction.noAction else netActionOf msg) ∧
      (∀ v ∈ (["1", "YES", "TRUE"] : List String),
        ("DHCP=" ++ v).data ∈ splitOnChar '|' (goToUpper msg).data →
          netActionOf msg = NetAction.dhcp) := by
  refine ⟨?_, ?_, ?_, ?_⟩
  · by_cases hd : hasDHCPFlag msg = true
    · simp [netActionOf, hd]
    · rw [Bool.not_eq_true] at hd
      simp only [netActionOf, hd, Bool.false_eq_true, if_false]
      constructor
      · intro h
        by_cases hf : (parseNetKV msg).ip ≠ "" ∨ (parseNetKV msg).mask ≠ "" ∨
          (parseNetKV msg).gw ≠ "" ∨ (parseNetKV msg).dns ≠ ""
        · rw [if_pos hf] at h; exact absurd h (by simp)
        · rw [if_neg hf] at h; exact absurd h (by simp)
      · intro h; simp at h
  · intro hd
    simp only [netActionOf, hd, Bool.false_eq_true, if_false]
    by_cases hf : (parseNetKV msg).ip ≠ "" ∨ (parseNetKV msg).mask ≠ "" ∨
      (parseNetKV msg).gw ≠ "" ∨ (parseNetKV msg).dns ≠ ""
    · simp [hf]
    · simp [hf]
  · intro existing deviceID saveOk applyOk
    cases saveOk with
    | false => simp [cfgStep]
    | true =>
      by_cases hd : hasDHCPFlag msg = true
      · simp [cfgStep, netActionOf, hd]
      · rw [Bool.not_eq_true] at hd
        by_cases hf : (parseNetKV msg).ip ≠ "" ∨ (parseNetKV msg).mask ≠ "" ∨
          (parseNetKV msg).gw ≠ "" ∨ (parseNetKV msg).dns ≠ ""
        · simp [cfgStep, netActionOf, hd, hf]
        · simp [cfgStep, netActionOf, hd, hf]
  · intro v hv hmem
    obtain ⟨A, B, hAB⟩ := splitOnChar_mem_infix '|' _ _ hmem
    have hflag : hasDHCPFlag msg = true := by
      fin_cases hv
      · have hc : hasSubList ("DHCP=1" : String).data (goToUpper msg).data = true :=
          (hasSubList_iff _ _).mpr ⟨A, B, hAB⟩
        simp [hasDHCPFlag, goContains, hc]
      · have hc : hasSubList ("DHCP=YES" : String).data (goToUpper msg).data = true :=
          (hasSubList_iff _ _).mpr ⟨A, B, hAB⟩
        simp [hasDHCPFlag, goContains, hc]
      · have hc : hasSubList ("DHCP=TRUE" : String).data (goToUpper msg).data = true :=
          (hasSubList_iff _ _).mpr ⟨A, B, hAB⟩
        simp [hasDHCPFlag, goContains, hc]
    simp [netActionOf, hflag]

/-- Witness for the amended C6: a well-formed DHCP=yes segment triggers the
DHCP apply, and a static request is classified static. -/
theorem C6_net_action_witness :
    netActionOf "CFG|DHCP=yes" = NetAction.dhcp ∧
      netActionOf "CFG|IP=10.0.0.2" = NetAction.staticCfg := by
  constructor
  · exact (C6_net_action_amended "CFG|DHCP=yes").2.2.2 "YES" (by decide) (by decide)
  · exact ((C6_net_action_amended "CFG|IP=10.0.0.2").2.1 (by decide)).mpr (by decide)

theorem digit_bounds (c : Char) (h : c.isDigit = true) :
    48 ≤ c.toNat ∧ c.toNat ≤ 57 := by
  simp only [Char.isDigit, Bool.and_eq_true, decide_eq_true_eq] at h
  exact ⟨h.1, h.2⟩

theorem not_space_of_digit (c : Char) (hd : c.isDigit = true) : goIsSpace c = false := by
  obtain ⟨h1, h2⟩ := digit_bounds c hd
  have n1 : c ≠ ' ' := fun he => absurd (he ▸ h1) (by decide)
  have n2 : c ≠ '\t' := fun he => absurd (he ▸ h1) (by decide)
  have n3 : c ≠ '\n' := fun he => absurd (he ▸ h1) (by decide)
  have n4 : c ≠ '\x0b' := fun he => absurd (he ▸ h1) (by decide)
  have n5 : c ≠ '\x0c' := fun he => absurd (he ▸ h1) (by decide)
  have n6 : c ≠ '\r' := fun he => absurd (he ▸ h1) (by decide)
  have n7 : ¬c.toNat = 133 := by omega
  have n8 : ¬c.toNat = 160 := by omega
  simp [goIsSpace, n1, n2, n3, n4, n5, n6, n7, n8]

theorem not_slash_of_digit (c : Char) (hd : c.isDigit = true) : c ≠ '/' := by
  obtain ⟨h1, _⟩ := digit_bounds c hd
  exact fun he => absurd (he ▸ h1) (by decide)

theorem splitOnChar_join (c : Char) : ∀ l, joinWithChar c (splitOnChar c l) = l := by
  intro l
  induction l with
  | nil => rfl
  | cons x xs ih =>
    simp only [splitOnChar]
    by_cases h : x = c
    · rw [if_pos h]
      cases hS : splitOnChar c xs with
      | nil => exact absurd hS (splitOnChar_ne_nil c xs)
      | cons s rest =>
        show c :: joinWithChar c (s :: rest) = x :: xs
        rw [← hS, ih, h]
    · rw [if_neg h]
      cases hS : splitOnChar c xs with
      | nil => exact absurd hS (splitOnChar_ne_nil c xs)
      | cons s rest =>
        cases rest with
        | nil =>
          show x :: s = x :: xs
          have : joinWithChar c (splitOnChar c xs) = xs := ih
          rw [hS] at this
          rw [show s = xs from this]
        | cons r rs =>
          show (x :: s) ++ c :: joinWithChar c (r :: rs) = x :: xs
          rw [List.cons_append]
          congr 1
          have : joinWithChar c (splitOnChar c xs) = xs := ih
          rw [hS] at this
          exact this

theorem splitOnChar_no_sep (c : Char) : ∀ l, c ∉ l → splitOnChar c l = [l] := by
  intro l
  induction l with
  | nil => intro _; rfl
  | cons x xs ih =>
    intro h
    have hx : x ≠ c := fun he => h (by rw [he]; exact List.mem_cons_self _ _)
    simp only [splitOnChar, if_neg hx]
    rw [ih (fun hm => h (List.mem_cons_of_mem _ hm))]

theorem splitOnChar_single (c : Char) :
    ∀ a, c ∉ a → ∀ b, c ∉ b → splitOnChar c (a ++ c :: b) = [a, b] := by
  intro a
  induction a with
  | nil =>
    intro _ b hb
    show splitOnChar c (c :: b) = [[], b]
    simp [splitOnChar, splitOnChar_no_sep c b hb]
  | cons x xs ih =>
    intro ha b hb
    have hx : x ≠ c := fun he => ha (by rw [he]; exact List.mem_cons_self _ _)
    have hrec := ih (fun hm => ha (List.mem_cons_of_mem _ hm)) b hb
    show splitOnChar c (x :: (xs ++ c :: b)) = [x :: xs, b]
    simp only [splitOnChar, if_neg hx]
    rw [hrec]

theorem parseIPv4_chars (s : String) (t : Nat × Nat × Nat × Nat)
    (h : parseIPv4 s = some t) : ∀ c ∈ s.data, c.isDigit = true ∨ c = '.' := by
  unfold parseIPv4 at h
  split at h
  case h_2 => exact absurd h (by simp)
  case h_1 a b c d heq =>
    split at h
    case isFalse => exact absurd h (by simp)
    case isTrue hv =>
      simp only [Bool.and_eq_true] at hv
      obtain ⟨⟨⟨hva, hvb⟩, hvc⟩, hvd⟩ := hv
      have hj : s.data = a ++ '.' :: (b ++ '.' :: (c ++ '.' :: d)) := by
        have := splitOnChar_join '.' s.data
        rw [heq] at this
        exact this.symm
      have hda : ∀ x ∈ a, x.isDigit = true := by
        have h' := hva
        simp only [validOctet, Bool.and_eq_true, List.all_eq_true, decide_eq_true_eq] at h'
        exact fun x hx => h'.1.1.2 x hx
      have hdb : ∀ x ∈ b, x.isDigit = true := by
        have h' := hvb
        simp only [validOctet, Bool.and_eq_true, List.all_eq_true, decide_eq_true_eq] at h'
        exact fun x hx => h'.1.1.2 x hx
      have hdc : ∀ x ∈ c, x.isDigit = true := by
        have h' := hvc
        simp only [validOctet, Bool.and_eq_true, List.all_eq_true, decide_eq_true_eq] at h'
        exact fun x hx => h'.1.1.2 x hx
      have hdd : ∀ x ∈ d, x.isDigit = true := by
        have h' := hvd
        simp only [validOctet, Bool.and_eq_true, List.all_eq_true, decide_eq_true_eq] at h'
        exact fun x hx => h'.1.1.2 x hx
      intro x hx
      rw [hj] at hx
      simp only [List.mem_append, List.mem_cons] at hx
      rcases hx with hx | hx | hx | hx | hx | hx
      · exact Or.inl (hda x hx)
      · exact Or.inr hx
      · exact Or.inl (hdb x hx)
      · exact Or.inr hx
      · exact Or.inl (hdc x hx)
      · rcases hx with hx | hx
        · exact Or.inr hx
        · exact Or.inl (hdd x hx)

theorem scanLine_addr_match (st : ScanState) (l : String)
    (h : keyMatch "Address=" l = true) :
    scanLine st l = { st with addr := addrValOf l } := by
  obtain ⟨X, hX⟩ := listPre_decomp _ _ h
  have h1 : goTrim l ≠ "" := ne_empty_of_data _ _ _ hX (by decide)
  have h2 : goStarts (goTrim l) "#" = false := by
    show listPre ("#" : String).data (goTrim l).data = false
    rw [hX]
    exact listPre_append_of_incomp _ _ _ (by decide) (by decide)
  have h3 : goStarts (goTrim l) "Address=" = true := h
  simp [scanLine, h1, h2, h3, addrValOf]

theorem scanLine_addr_skip (st : ScanState) (l : String)
    (h : keyMatch "Address=" l = false) : (scanLine st l).addr = st.addr := by
  have h' : goStarts (goTrim l) "Address=" = false := h
  unfold scanLine
  simp only [h', Bool.false_eq_true, if_false]
  repeat' split
  all_goals rfl

theorem foldl_scan_addr : ∀ (lines : List String) (st : ScanState),
    (lines.foldl scanLine st).addr = (lastAddrVal lines).getD st.addr := by
  intro lines
  induction lines with
  | nil => intro st; rfl
  | cons x rest ih =>
    intro st
    rw [List.foldl_cons, ih]
    cases hL : lastAddrVal rest with
    | some v => simp [lastAddrVal, hL]
    | none =>
      by_cases hx : keyMatch "Address=" x = true
      · simp [lastAddrVal, hL, hx, scanLine_addr_match st x hx]
      · rw [Bool.not_eq_true] at hx
        simp [lastAddrVal, hL, hx, scanLine_addr_skip st x hx]

theorem lastAddrVal_none : ∀ ls, (∀ l ∈ ls, keyMatch "Address=" l = false) →
    lastAddrVal ls = none := by
  intro ls
  induction ls with
  | nil => intro _; rfl
  | cons x rest ih =>
    intro h
    have hx : keyMatch "Address=" x = false := h x (by simp)
    simp [lastAddrVal, ih (fun l hl => h l (by simp [hl])), hx]

theorem lastAddrVal_of_filter : ∀ ls w,
    ls.filter (fun l => keyMatch "Address=" l) = [w] →
    lastAddrVal ls = some (addrValOf w) := by
  intro ls
  induction ls with
  | nil => intro w h; simp at h
  | cons x rest ih =>
    intro w h
    by_cases hx : keyMatch "Address=" x = true
    · simp only [List.filter_cons, hx, if_true] at h
      injection h with h1 h2
      subst h1
      have hrest : ∀ l ∈ rest, keyMatch "Address=" l = false := by
        intro l hl
        have hm := List.filter_eq_nil.mp h2 l hl
        rwa [Bool.not_eq_true] at hm
      simp [lastAddrVal, lastAddrVal_none rest hrest, hx]
    · rw [Bool.not_eq_true] at hx
      simp only [List.filter_cons, hx, Bool.false_eq_true, if_false] at h
      simp [lastAddrVal, ih w h]

theorem filter_upsert_singleton (ls : List String) (sec key new : String)
    (q : String → Bool)
    (hnil : ls.filter q = []) (hq : q new = true) (hne : new ≠ "")
    (hqe : q "" = false) (hqs : q sec = false) :
    (upsertInSection ls sec key new).filter q = [new] := by
  rcases upsert_frame ls sec key new hne with
    ⟨A, m, B, hb, hm, hmh, hres⟩ | ⟨A, B, hb, hres⟩ | ⟨hres, hclean⟩
  · rw [hb, List.filter_append] at hnil
    obtain ⟨hA, hmB⟩ := List.append_eq_nil.mp hnil
    have hB : B.filter q = [] := by
      rw [List.filter_cons] at hmB
      split at hmB
      · exact absurd hmB (by simp)
      · exact hmB
    rw [hres, List.filter_append, hA, List.filter_cons, if_pos hq, hB]
    rfl
  · rw [hb, List.filter_append] at hnil
    obtain ⟨hA, hB⟩ := List.append_eq_nil.mp hnil
    rw [hres, List.filter_append, hA, List.filter_cons, if_pos hq, hB]
    rfl
  · rw [hres, List.filter_append, hnil]
    simp [List.filter_cons, hqe, hqs, hq]

theorem filter_upsert_keep (ls : List String) (sec key new : String)
    (q : String → Bool)
    (hqn : q new = false)
    (hinc : ∀ l, keyMatch key l = true → q l = false)
    (hqe : q "" = false) (hqs : q sec = false) :
    (upsertInSection ls sec key new).filter q = ls.filter q := by
  by_cases hne : new = ""
  · rw [upsertInSection, if_pos hne]
  · rcases upsert_frame ls sec key new hne with
      ⟨A, m, B, hb, hm, hmh, hres⟩ | ⟨A, B, hb, hres⟩ | ⟨hres, hclean⟩
    · rw [hres, hb]
      simp [List.filter_append, List.filter_cons, hqn, hinc m hm]
    · rw [hres, hb]
      simp [List.filter_append, List.filter_cons, hqn]
    · rw [hres]
      simp [List.filter_append, List.filter_cons, hqe, hqs, hqn]

theorem filter_applyStatic (lines : List String) (ip mask gw dns : String)
    (hip : ip ≠ "")
    (hclean : ∀ l ∈ lines, keyMatch "Address=" l = false) :
    (applyStaticLines lines ip mask gw dns).filter (fun l => keyMatch "Address=" l) =
      [addrLineFor ip mask] := by
  obtain ⟨arest, ha⟩ := addrLineFor_data ip mask hip
  have hane : addrLineFor ip mask ≠ "" := ne_empty_of_data _ _ _ ha (by decide)
  have haA : keyMatch "Address=" (addrLineFor ip mask) = true :=
    keyMatch_true_of_data _ _ _ ha (by decide) (by decide)
  have h0 : (ensureNetworkSection lines).filter (fun l => keyMatch "Address=" l) = [] := by
    unfold ensureNetworkSection
    by_cases hc : hasNetworkSection lines = true
    · rw [if_pos hc]
      exact List.filter_eq_nil.mpr (fun l hl => by simp [hclean l hl])
    · rw [if_neg hc, List.filter_append,
        List.filter_eq_nil.mpr (fun l hl => by simp [hclean l hl])]
      decide
  have hgq : keyMatch "Address=" (if gw = "" then "" else "Gateway=" ++ gw) = false := by
    by_cases hg : gw = ""
    · rw [if_pos hg]; decide
    · rw [if_neg hg]
      exact keyMatch_false_of_data "Address=" "Gateway=" _ _ (data_append _ _)
        (by decide) (by decide) (by decide) (by decide)
  have hdq : keyMatch "Address=" (if dns = "" then "" else "DNS=" ++ dns) = false := by
    by_cases hd : dns = ""
    · rw [if_pos hd]; decide
    · rw [if_neg hd]
      exact keyMatch_false_of_data "Address=" "DNS=" _ _ (data_append _ _)
        (by decide) (by decide) (by decide) (by decide)
  show (upsertInSection
      (upsertInSection
        (upsertInSection
          (upsertInSection (ensureNetworkSection lines) "[Network]" "Address="
            (addrLineFor ip mask))
          "[Network]" "Gateway=" (if gw = "" then "" else "Gateway=" ++ gw))
        "[Network]" "DNS=" (if dns = "" then "" else "DNS=" ++ dns))
      "[Network]" "DHCP=" "DHCP=no").filter (fun l => keyMatch "Address=" l) =
    [addrLineFor ip mask]
  rw [filter_upsert_keep _ _ _ _ _ (by decide)
    (fun l hl => keyMatch_incomp "Address=" "DHCP=" (by decide) (by decide) l hl)
    (by decide) (by decide)]
  rw [filter_upsert_keep _ _ _ _ _ hdq
    (fun l hl => keyMatch_incomp "Address=" "DNS=" (by decide) (by decide) l hl)
    (by decide) (by decide)]
  rw [filter_upsert_keep _ _ _ _ _ hgq
    (fun l hl => keyMatch_incomp "Address=" "Gateway=" (by decide) (by decide) l hl)
    (by decide) (by decide)]
  exact filter_upsert_singleton _ _ _ _ _ h0 haA hane (by decide) (by decide)

theorem repr_ok : ∀ p : Fin 33,
    (Nat.repr p.val).data.all
        (fun c => c.isDigit && !goIsSpace c && decide (c ≠ '/')) = true ∧
      goAtoi (Nat.repr p.val) = some (p.val : Int) ∧
      pfxToMask p.val ≠ "" := by decide

theorem mask_pfx_round : ∀ p : Fin 33, maskToPfx (pfxToMask p.val) = p.val := by decide

/-- C3: write-then-query round trip.  For a valid dotted IPv4 ip and a
contiguous non-zero dotted mask (mask = prefixToMask p, 1 ≤ p ≤ 32), after
the static rewrite of a file holding no prior Address line, the file parse
performed by parseNetworkFiles — the first source getNetworkParams
consults — returns exactly that ip and mask, overriding any live values;
and the CFG request carrying those fields is answered
CFG_ACK|ID=<id>|NET_ACK when save and apply succeed. -/
theorem C3_write_query_round_trip
    (lines : List String) (ip mask gw dns : String) (p : Nat)
    (liveIp liveMask liveGw liveDns : String)
    (existing : DeviceConfig) (deviceID msg : String)
    (hip4 : (parseIPv4 ip).isSome = true)
    (hp1 : 1 ≤ p) (hp32 : p ≤ 32) (hmask : mask = pfxToMask p)
    (hclean : ∀ l ∈ lines, keyMatch "Address=" l = false) :
    ((getNetworkParams (applyStaticLines lines ip mask gw dns)
          liveIp liveMask liveGw liveDns).ip = ip ∧
        (getNetworkParams (applyStaticLines lines ip mask gw dns)
          liveIp liveMask liveGw liveDns).mask = mask) ∧
      (hasDHCPFlag msg = false → parseNetKV msg = ⟨ip, mask, gw, dns⟩ →
        (cfgStep existing deviceID msg true true).reply =
          "CFG_ACK|ID=" ++ (cfgPatched deviceID msg).id ++ "|NET_ACK") := by
  obtain ⟨t, ht⟩ : ∃ t, parseIPv4 ip = some t := Option.isSome_iff_exists.mp hip4
  have hipchars := parseIPv4_chars ip t ht
  have hipns : ∀ c ∈ ip.data, goIsSpace c = false := by
    intro c hc
    rcases hipchars c hc with hd | hdot
    · exact not_space_of_digit c hd
    · rw [hdot]; decide
  have hipnsl : '/' ∉ ip.data := by
    intro hc
    rcases hipchars '/' hc with hd | hdot
    · exact (not_slash_of_digit '/' hd) rfl
    · exact absurd hdot (by decide)
  have hipne : ip ≠ "" := by
    intro he
    rw [he] at hip4
    exact absurd hip4 (by decide)
  have hpfx : maskToPfx mask = p := by
    rw [hmask]
    exact mask_pfx_round ⟨p, by omega⟩
  have hpfxpos : 0 < maskToPfx mask := by rw [hpfx]; omega
  have hmne : mask ≠ "" := by
    rw [hmask]
    exact (repr_ok ⟨p, by omega⟩).2.2
  have haddr : addrLineFor ip mask = "Address=" ++ ip ++ "/" ++ Nat.repr p := by
    unfold addrLineFor
    rw [if_neg hipne, if_neg hmne, if_pos hpfxpos, hpfx]
  have hreprAll := (repr_ok ⟨p, by omega⟩).1
  have hrepr : ∀ c ∈ (Nat.repr p).data, c.isDigit = true ∧ goIsSpace c = false ∧ c ≠ '/' := by
    intro c hc
    have hall := List.all_eq_true.mp hreprAll c hc
    simp only [Bool.and_eq_true, Bool.not_eq_true', decide_eq_true_eq] at hall
    exact ⟨hall.1.1, hall.1.2, hall.2⟩
  have hatoi : goAtoi (Nat.repr p) = some (p : Int) := (repr_ok ⟨p, by omega⟩).2.1
  have hfil := filter_applyStatic lines ip mask gw dns hipne hclean
  have hlast : lastAddrVal (applyStaticLines lines ip mask gw dns) =
      some (addrValOf (addrLineFor ip mask)) :=
    lastAddrVal_of_filter _ _ hfil
  have hfold : ((applyStaticLines lines ip mask gw dns).foldl scanLine
      ⟨"", "", ""⟩).addr = addrValOf (addrLineFor ip mask) := by
    rw [foldl_scan_addr _ ⟨"", "", ""⟩, hlast]
    rfl
  have hAdata : (addrLineFor ip mask).data =
      "Address=".data ++ (ip.data ++ '/' :: (Nat.repr p).data) := by
    rw [haddr]
    simp [data_append, List.append_assoc]
  have hR_ns : ∀ c ∈ ip.data ++ '/' :: (Nat.repr p).data, goIsSpace c = false := by
    intro c hc
    simp only [List.mem_append, List.mem_cons] at hc
    rcases hc with hc | hc | hc
    · exact hipns c hc
    · rw [hc]; decide
    · exact (hrepr c hc).2.1
  have hA_ns : ∀ c ∈ (addrLineFor ip mask).data, goIsSpace c = false := by
    have hk : ∀ c ∈ ("Address=" : String).data, goIsSpace c = false := by decide
    intro c hc
    rw [hAdata] at hc
    rcases List.mem_append.mp hc with hc | hc
    · exact hk c hc
    · exact hR_ns c hc
  have htrimA : goTrim (addrLineFor ip mask) = addrLineFor ip mask :=
    goTrim_all _ hA_ns
  have hdrop : (addrLineFor ip mask).data.drop ("Address=" : String).data.length =
      ip.data ++ '/' :: (Nat.repr p).data := by
    rw [hAdata]
    exact List.drop_left _ _
  have hval : addrValOf (addrLineFor ip mask) =
      ⟨ip.data ++ '/' :: (Nat.repr p).data⟩ := by
    unfold addrValOf goTrimPre
    rw [htrimA, if_pos (by rw [hAdata]; exact listPre_append_self _ _), hdrop]
    show String.mk (trimChars (ip.data ++ '/' :: (Nat.repr p).data)) = _
    rw [trimChars_all _ hR_ns]
  have hst : ((applyStaticLines lines ip mask gw dns).foldl scanLine
      ⟨"", "", ""⟩).addr = ⟨ip.data ++ '/' :: (Nat.repr p).data⟩ := by
    rw [hfold, hval]
  have hsplit : splitOnChar '/' (ip.data ++ '/' :: (Nat.repr p).data) =
      [ip.data, (Nat.repr p).data] :=
    splitOnChar_single '/' ip.data hipnsl (Nat.repr p).data
      (fun hc => (hrepr '/' hc).2.2 rfl)
  have hgoTrimip : goTrim ip = ip := goTrim_all _ hipns
  have hipeta : goTrim (⟨ip.data⟩ : String) = ip := hgoTrimip
  have hisip : isIPv4 ip = true := by
    show (parseIPv4 (goTrim ip)).isSome = true
    rw [hgoTrimip, ht]
    rfl
  have hRne : (⟨ip.data ++ '/' :: (Nat.repr p).data⟩ : String) ≠ "" := by
    intro he
    have hd : ip.data ++ '/' :: (Nat.repr p).data = [] := congrArg String.data he
    rcases List.append_eq_nil.mp hd with ⟨_, h2⟩
    exact absurd h2 (by simp)
  have him : addrToIpMask ⟨ip.data ++ '/' :: (Nat.repr p).data⟩ = (ip, pfxToMask p) := by
    unfold addrToIpMask
    rw [if_pos hRne]
    rw [show (⟨ip.data ++ '/' :: (Nat.repr p).data⟩ : String).data =
      ip.data ++ '/' :: (Nat.repr p).data from rfl, hsplit]
    show (if isIPv4 (goTrim ⟨ip.data⟩) = true then
        (goTrim ⟨ip.data⟩,
          match goAtoi ⟨(Nat.repr p).data⟩ with
          | some pfx => if 0 ≤ pfx ∧ pfx ≤ 32 then pfxToMask pfx.toNat else ""
          | none => "")
      else ("", "")) = (ip, pfxToMask p)
    rw [hipeta, if_pos hisip,
      show (⟨(Nat.repr p).data⟩ : String) = Nat.repr p from rfl, hatoi]
    show (ip, if 0 ≤ (p : Int) ∧ (p : Int) ≤ 32 then pfxToMask ((p : Int)).toNat else "") =
      (ip, pfxToMask p)
    rw [if_pos (⟨by omega, by omega⟩ : 0 ≤ (p : Int) ∧ (p : Int) ≤ 32),
      Int.toNat_natCast]
  have hparse : (parseNetLines (applyStaticLines lines ip mask gw dns)).ip = ip ∧
      (parseNetLines (applyStaticLines lines ip mask gw dns)).mask = pfxToMask p := by
    constructor
    · show (addrToIpMask (((applyStaticLines lines ip mask gw dns).foldl scanLine
        ⟨"", "", ""⟩).addr)).1 = ip
      rw [hst, him]
    · show (addrToIpMask (((applyStaticLines lines ip mask gw dns).foldl scanLine
        ⟨"", "", ""⟩).addr)).2 = pfxToMask p
      rw [hst, him]
  refine ⟨⟨?_, ?_⟩, ?_⟩
  · show (if (parseNetLines (applyStaticLines lines ip mask gw dns)).ip = ""
      then liveIp else (parseNetLines (applyStaticLines lines ip mask gw dns)).ip) = ip
    rw [hparse.1, if_neg hipne]
  · show (if (parseNetLines (applyStaticLines lines ip mask gw dns)).mask = ""
      then liveMask else (parseNetLines (applyStaticLines lines ip mask gw dns)).mask) =
      mask
    rw [hparse.2, if_neg (by rw [← hmask]; exact hmne), hmask]
  · intro hd hkv
    have hipne2 : (parseNetKV msg).ip ≠ "" := by rw [hkv]; exact hipne
    simp [cfgStep, hd, hipne2]

/-- Witness for C3: the scenario intent on a fresh template file. -/
theorem C3_write_query_round_trip_witness :
    (getNetworkParams
          (applyStaticLines ["[Match]", "Name=eth0", "", "[Network]"]
            "192.168.1.50" "255.255.255.0" "192.168.1.1" "")
          "10.9.9.9" "255.0.0.0" "10.9.9.1" "1.1.1.1").ip = "192.168.1.50" ∧
      (getNetworkParams
          (applyStaticLines ["[Match]", "Name=eth0", "", "[Network]"]
            "192.168.1.50" "255.255.255.0" "192.168.1.1" "")
          "10.9.9.9" "255.0.0.0" "10.9.9.1" "1.1.1.1").mask = "255.255.255.0" ∧
      (cfgStep ⟨"", "", ""⟩ "dev" "CFG|IP=192.168.1.50|MASK=255.255.255.0|GW=192.168.1.1"
          true true).reply = "CFG_ACK|ID=dev|NET_ACK" := by
  have h := C3_write_query_round_trip ["[Match]", "Name=eth0", "", "[Network]"]
    "192.168.1.50" "255.255.255.0" "192.168.1.1" "" 24
    "10.9.9.9" "255.0.0.0" "10.9.9.1" "1.1.1.1"
    ⟨"", "", ""⟩ "dev" "CFG|IP=192.168.1.50|MASK=255.255.255.0|GW=192.168.1.1"
    (by decide) (by decide) (by decide) (by decide) (by decide)
  refine ⟨h.1.1, h.1.2, ?_⟩
  rw [h.2 (by decide) (by decide)]
  decide

theorem group4_cons : ∀ (a : Char) (cs : List Char), ∃ rest, group4 (a :: cs) = a :: rest
  | a, b :: c :: d :: e :: rest => ⟨b :: c :: d :: '-' :: group4 (e :: rest), rfl⟩
  | a, [] => ⟨[], rfl⟩
  | a, [b] => ⟨[b], rfl⟩
  | a, [b, c] => ⟨[b, c], rfl⟩
  | a, [b, c, d] => ⟨[b, c, d], rfl⟩

theorem mem_group4 : ∀ (cs : List Char) (x : Char), x ∈ group4 cs → x = '-' ∨ x ∈ cs
  | [], x, h => Or.inr h
  | [a], x, h => Or.inr h
  | [a, b], x, h => Or.inr h
  | [a, b, c], x, h => Or.inr h
  | [a, b, c, d], x, h => Or.inr h
  | a :: b :: c :: d :: e :: rest, x, h => by
    rw [show group4 (a :: b :: c :: d :: e :: rest) =
      a :: b :: c :: d :: '-' :: group4 (e :: rest) from rfl] at h
    simp only [List.mem_cons] at h
    rcases h with rfl | rfl | rfl | rfl | rfl | h
    · right; simp
    · right; simp
    · right; simp
    · right; simp
    · left; rfl
    · rcases mem_group4 (e :: rest) x h with h | h
      · exact Or.inl h
      · right; simp only [List.mem_cons] at h ⊢
        tauto

theorem chunks4_cons_ne_nil : ∀ (x : Char) (xs : List Char), chunks4 (x :: xs) ≠ []
  | x, [] => by rw [show chunks4 [x] = [[x]] from rfl]; simp
  | x, [b] => by rw [show chunks4 [x, b] = [[x, b]] from rfl]; simp
  | x, [b, c] => by rw [show chunks4 [x, b, c] = [[x, b, c]] from rfl]; simp
  | x, [b, c, d] => by rw [show chunks4 [x, b, c, d] = [[x, b, c, d]] from rfl]; simp
  | x, b :: c :: d :: e :: rest => by
    rw [show chunks4 (x :: b :: c :: d :: e :: rest) =
      [x, b, c, d] :: chunks4 (e :: rest) from rfl]
    simp

theorem group4_eq_chunks : ∀ cs, group4 cs = dashJoin (chunks4 cs)
  | [] => rfl
  | [a] => rfl
  | [a, b] => rfl
  | [a, b, c] => rfl
  | [a, b, c, d] => rfl
  | a :: b :: c :: d :: e :: rest => by
    have ih := group4_eq_chunks (e :: rest)
    rw [show group4 (a :: b :: c :: d :: e :: rest) =
        a :: b :: c :: d :: '-' :: group4 (e :: rest) from rfl,
      show chunks4 (a :: b :: c :: d :: e :: rest) =
        [a, b, c, d] :: chunks4 (e :: rest) from rfl, ih]
    cases hc : chunks4 (e :: rest) with
    | nil => exact absurd hc (chunks4_cons_ne_nil e rest)
    | cons y ys => rfl

theorem toHexChars_mem : ∀ n c, c ∈ toHexChars n → ∃ m, c = hexDigit m := by
  intro n
  induction n using Nat.strong_induction_on with
  | _ n ih =>
    intro c hc
    by_cases h : n < 16
    · rw [toHexChars, if_pos h] at hc
      simp only [List.mem_singleton] at hc
      exact ⟨n, hc⟩
    · rw [toHexChars, if_neg h] at hc
      rcases List.mem_append.mp hc with hc | hc
      · exact ih (n / 16) (Nat.div_lt_self (by omega) (by omega)) c hc
      · simp only [List.mem_singleton] at hc
        exact ⟨n % 16, hc⟩

theorem upHex_not_space : ∀ m : Nat, goIsSpace (goUpChar (hexDigit m)) = false
  | 0 => by decide
  | 1 => by decide
  | 2 => by decide
  | 3 => by decide
  | 4 => by decide
  | 5 => by decide
  | 6 => by decide
  | 7 => by decide
  | 8 => by decide
  | 9 => by decide
  | 10 => by decide
  | 11 => by decide
  | 12 => by decide
  | 13 => by decide
  | 14 => by decide
  | 15 => by decide
  | n + 16 => by
    rw [show hexDigit (n + 16) = '0' from rfl]
    decide

theorem gen_chars (ts : Nat) : ∀ c ∈ (generateUniqueID ts).data, goIsSpace c = false := by
  intro c hc
  have hc' : c ∈ group4 ('0' :: (toHexChars ts).map goUpChar) := hc
  rcases mem_group4 _ c hc' with rfl | hm
  · decide
  · rcases List.mem_cons.mp hm with rfl | hm'
    · decide
    · obtain ⟨d, hd, rfl⟩ := List.mem_map.mp hm'
      obtain ⟨m, rfl⟩ := toHexChars_mem ts d hd
      exact upHex_not_space m

theorem gen_ne (ts : Nat) : generateUniqueID ts ≠ "" := by
  intro he
  have hd : group4 ('0' :: (toHexChars ts).map goUpChar) = [] := congrArg String.data he
  obtain ⟨rest, hrest⟩ := group4_cons '0' ((toHexChars ts).map goUpChar)
  rw [hrest] at hd
  exact absurd hd (by simp)

/-- C9: identity format and stability.  A stored identifier with non-empty
trimmed content is returned unchanged (trimmed); with no stored identity
the generated identifier is returned — the uppercase hexadecimal rendering
of the timestamp with a leading 0, grouped into 4-character chunks joined
by dashes (the rendering equals the spec-worded chunking); an agent whose
identity was just generated answers TF with TF|ID=<id>|PORT=<port> and
GET_ID with ID=<id>, and re-reading the stored generated identifier returns
it unchanged. -/
theorem C9_identity_format_stability :
    (∀ (b : String) (ts : Nat), goTrim b ≠ "" → ensureUniqueID (some b) ts = goTrim b) ∧
      (∀ ts, ensureUniqueID none ts = generateUniqueID ts) ∧
      (∀ ts, (generateUniqueID ts).data =
        dashJoin (chunks4 ('0' :: (toHexChars ts).map goUpChar))) ∧
      (∀ ts ts2, ensureUniqueID (some (generateUniqueID ts)) ts2 = generateUniqueID ts) ∧
      (∀ (env : AgentEnv) (ts : Nat), env.uid = ensureUniqueID none ts →
        respond env "TF" = "TF|ID=" ++ generateUniqueID ts ++ "|PORT=" ++ env.port ∧
          respond env "GET_ID" = "ID=" ++ generateUniqueID ts) := by
  refine ⟨?_, ?_, ?_, ?_, ?_⟩
  · intro b ts h
    simp [ensureUniqueID, h]
  · intro ts
    rfl
  · intro ts
    exact group4_eq_chunks _
  · intro ts ts2
    have htrim : goTrim (generateUniqueID ts) = generateUniqueID ts :=
      goTrim_all _ (gen_chars ts)
    simp [ensureUniqueID, htrim, gen_ne ts]
  · intro env ts h
    constructor
    · have h1 : goToUpper (goTrim "TF") = "TF" := by decide
      simp [respond, h1, h]
      rfl
    · have h1 : goToUpper (goTrim "GET_ID") = "TF" → False := by decide
      have h2 : goToUpper (goTrim "GET_ID") = "GET_ID" := by decide
      simp [respond, h1, h2, h]
      rfl

/-- Witness for C9 on a stored identifier and a concrete timestamp. -/
theorem C9_identity_format_stability_witness :
    ensureUniqueID (some " 0ABC-12 ") 99 = goTrim " 0ABC-12 " ∧
      ensureUniqueID (some (generateUniqueID 5)) 7 = generateUniqueID 5 := by
  refine ⟨C9_identity_format_stability.1 " 0ABC-12 " 99 (by decide), ?_⟩
  exact C9_identity_format_stability.2.2.2.1 5 7

theorem dropSpaces_suffix : ∀ l : List Char, ∃ A, l = A ++ dropSpaces l := by
  intro l
  induction l with
  | nil => exact ⟨[], rfl⟩
  | cons c cs ih =>
    by_cases h : goIsSpace c = true
    · obtain ⟨A, hA⟩ := ih
      refine ⟨c :: A, ?_⟩
      rw [show dropSpaces (c :: cs) = dropSpaces cs from by simp [dropSpaces, h],
        List.cons_append, ← hA]
    · rw [Bool.not_eq_true] at h
      exact ⟨[], by rw [dropSpaces_of_head c cs h]; simp⟩

theorem trimChars_infix (l : List Char) : ∃ A B, l = A ++ trimChars l ++ B := by
  obtain ⟨A1, h1⟩ := dropSpaces_suffix l
  obtain ⟨A2, h2⟩ := dropSpaces_suffix (dropSpaces l).reverse
  refine ⟨A1, A2.reverse, ?_⟩
  have key : dropSpaces l = trimChars l ++ A2.reverse := by
    conv_lhs => rw [← List.reverse_reverse (dropSpaces l), h2, List.reverse_append]
    rfl
  calc l = A1 ++ dropSpaces l := h1
    _ = A1 ++ (trimChars l ++ A2.reverse) := by rw [key]
    _ = A1 ++ trimChars l ++ A2.reverse := by rw [List.append_assoc]

theorem hasSub_infix_false (pat A m B : List Char)
    (h : hasSubList pat (A ++ m ++ B) = false) : hasSubList pat m = false := by
  by_cases hm : hasSubList pat m = true
  · obtain ⟨X, Y, hXY⟩ := (hasSubList_iff pat m).mp hm
    have hful : hasSubList pat (A ++ m ++ B) = true :=
      (hasSubList_iff _ _).mpr ⟨A ++ X, Y ++ B, by rw [hXY]; simp [List.append_assoc]⟩
    rw [hful] at h
    exact absurd h (by simp)
  · rwa [Bool.not_eq_true] at hm

/-- C10 counterexample: the error text restart_ack does not contain the
substring RESTART_ACK, yet the nack reply carrying it satisfies
sendRestartAndWaitAck's acceptance test, because the client uppercases the
message before the substring check. -/
theorem C10_nack_acceptance_counterexample :
    goContains "restart_ack" "RESTART_ACK" = false ∧
      restartAccepts "RESTART_NACK|ERR=restart_ack" = true := by decide

/-- C10 amended: a failed save is answered CFG_NACK|ERR=SAVE_FAILED, which
the client's CFG acceptance test rejects; a failed restart is answered
RESTART_NACK|ERR=<sanitized e>, and for every error text e whose UPPERCASED
form does not contain RESTART_ACK the client's restart acceptance test
rejects that reply — so such failures surface at the client only as
timeouts. -/
theorem C10_nack_acceptance_amended :
    (∀ (existing : DeviceConfig) (deviceID msg : String) (applyOk : Bool),
        (cfgStep existing deviceID msg false applyOk).reply =
          "CFG_NACK|ERR=SAVE_FAILED") ∧
      cfgAckAccepts "CFG_NACK|ERR=SAVE_FAILED" = false ∧
      (∀ (env : AgentEnv) (e : String), env.restartErr = some e →
        respond env "RESTART" = "RESTART_NACK|ERR=" ++ goReplacePipe e) ∧
      (∀ e : String, goContains (goToUpper e) "RESTART_ACK" = false →
        restartAccepts ("RESTART_NACK|ERR=" ++ e) = false) := by
  refine ⟨?_, by decide, ?_, ?_⟩
  · intro existing deviceID msg applyOk
    simp [cfgStep]
  · intro env e h
    have c1 : ¬goToUpper (goTrim "RESTART") = "TF" := by decide
    have c2 : ¬goToUpper (goTrim "RESTART") = "GET_ID" := by decide
    have c3 : ¬(goToUpper (goTrim "RESTART") = "QUERY" ∨
        goToUpper (goTrim "RESTART") = "QRY" ∨
        goToUpper (goTrim "RESTART") = "QUERY_NET" ∨
        goToUpper (goTrim "RESTART") = "QRY_NET" ∨
        goToUpper (goTrim "RESTART") = "NET" ∨
        goToUpper (goTrim "RESTART") = "GET_NET") := by decide
    have c4 : goStarts "RESTART" "CFG|" = false := by decide
    have c5 : goToUpper (goTrim "RESTART") = "RESTART" := by decide
    simp [respond, c1, c2, c3, c4, c5, h]
  · intro e he
    have hupper : (goToUpper ("RESTART_NACK|ERR=" ++ e)).data =
        ("RESTART_NACK|ERR" : String).data ++ '=' :: (goToUpper e).data := by
      show ("RESTART_NACK|ERR=" ++ e).data.map goUpChar = _
      rw [data_append, List.map_append,
        show ("RESTART_NACK|ERR=" : String).data.map goUpChar =
          ("RESTART_NACK|ERR" : String).data ++ ['='] from by decide,
        List.append_assoc]
      rfl
    have hfull : hasSubList ("RESTART_ACK" : String).data
        (goToUpper ("RESTART_NACK|ERR=" ++ e)).data = false := by
      rw [hupper, hasSubList_append_sep _ '=' (by decide) (by decide),
        show hasSubList ("RESTART_ACK" : String).data
          ("RESTART_NACK|ERR" : String).data = false from by decide,
        Bool.false_or]
      exact he
    obtain ⟨A, B, hAB⟩ := trimChars_infix ("RESTART_NACK|ERR=" ++ e).data
    have htrimsub : hasSubList ("RESTART_ACK" : String).data
        (goToUpper (goTrim ("RESTART_NACK|ERR=" ++ e))).data = false := by
      apply hasSub_infix_false _ (A.map goUpChar) _ (B.map goUpChar)
      rw [show A.map goUpChar ++
          (goToUpper (goTrim ("RESTART_NACK|ERR=" ++ e))).data ++ B.map goUpChar =
          (goToUpper ("RESTART_NACK|ERR=" ++ e)).data from ?_]
      · exact hfull
      · show _ = ("RESTART_NACK|ERR=" ++ e).data.map goUpChar
        rw [show (goToUpper (goTrim ("RESTART_NACK|ERR=" ++ e))).data =
          (trimChars ("RESTART_NACK|ERR=" ++ e).data).map goUpChar from rfl,
          ← List.map_append, ← List.map_append, ← hAB]
    simp [restartAccepts, goContains, htrimsub]

/-- Witness for the amended C10 on a plain error text. -/
theorem C10_nack_acceptance_witness :
    restartAccepts ("RESTART_NACK|ERR=" ++ "PERMISSION DENIED") = false :=
  C10_nack_acceptance_amended.2.2.2 "PERMISSION DENIED" (by decide)

/-- The string put into an existing String.mk equals the original string. -/
theorem mk_data (s : String) : (⟨s.data⟩ : String) = s := by cases s; rfl

/-- The head of a left-trimmed list is never whitespace. -/
theorem dropSpaces_head_ns : ∀ (l : List Char) (c : Char) (cs : List Char),
    dropSpaces l = c :: cs → goIsSpace c = false := by
  intro l
  induction l with
  | nil => intro c cs h; exact absurd h (by simp [dropSpaces])
  | cons x xs ih =>
    intro c cs h
    by_cases hx : goIsSpace x
    · rw [show dropSpaces (x :: xs) = dropSpaces xs by simp [dropSpaces, hx]] at h
      exact ih c cs h
    · rw [Bool.not_eq_true] at hx
      rw [dropSpaces_of_head x xs hx] at h
      rw [← List.cons.injEq x xs c cs |>.mp h |>.1] at *
      exact hx

/-- Left trimming is idempotent. -/
theorem dropSpaces_idem (l : List Char) : dropSpaces (dropSpaces l) = dropSpaces l := by
  cases h : dropSpaces l with
  | nil => rfl
  | cons c cs => exact dropSpaces_of_head c cs (dropSpaces_head_ns l c cs h)

/-- Left trimming does not touch the last element of a list. -/
theorem dropSpaces_getLast : ∀ l : List Char, dropSpaces l ≠ [] →
    (dropSpaces l).getLast? = l.getLast? := by
  intro l
  induction l with
  | nil => intro h; exact absurd rfl h
  | cons x xs ih =>
    intro h
    by_cases hx : goIsSpace x
    · have he : dropSpaces (x :: xs) = dropSpaces xs := by simp [dropSpaces, hx]
      rw [he] at h ⊢
      rw [ih h]
      cases hxs : xs with
      | nil => rw [hxs] at h; exact absurd rfl h
      | cons y ys => simp [List.getLast?]
    · rw [Bool.not_eq_true] at hx
      rw [dropSpaces_of_head x xs hx]

/-- A fully trimmed list is already left-trimmed. -/
theorem dropSpaces_trimChars (l : List Char) : dropSpaces (trimChars l) = trimChars l := by
  cases h : trimChars l with
  | nil => rfl
  | cons c cs =>
    refine dropSpaces_of_head c cs ?_
    have hh : (trimChars l).head? = some c := by rw [h]; rfl
    have hne : dropSpaces ((dropSpaces l).reverse) ≠ [] := by
      intro hc
      rw [show trimChars l = (dropSpaces ((dropSpaces l).reverse)).reverse from rfl, hc] at h
      exact absurd h (by simp)
    rw [show trimChars l = (dropSpaces ((dropSpaces l).reverse)).reverse from rfl,
      List.head?_reverse, dropSpaces_getLast _ hne, List.getLast?_reverse] at hh
    cases hd : dropSpaces l with
    | nil => rw [hd] at hh; exact absurd hh (by simp)
    | cons d ds =>
      rw [hd] at hh
      simp only [List.head?_cons, Option.some.injEq] at hh
      rw [← hh]
      exact dropSpaces_head_ns l d ds hd

/-- Two-sided trimming is idempotent. -/
theorem trimChars_idem (l : List Char) : trimChars (trimChars l) = trimChars l := by
  show (dropSpaces ((dropSpaces (trimChars l)).reverse)).reverse = trimChars l
  rw [dropSpaces_trimChars]
  show (dropSpaces (((dropSpaces ((dropSpaces l).reverse)).reverse).reverse)).reverse
    = trimChars l
  rw [List.reverse_reverse, dropSpaces_idem]
  rfl

/-- Go's TrimSpace is idempotent. -/
theorem goTrim_idem (s : String) : goTrim (goTrim s) = goTrim s := by
  show String.mk (trimChars (trimChars s.data)) = String.mk (trimChars s.data)
  rw [trimChars_idem]

/-- splitFirst finds nothing when the separator is absent. -/
theorem splitFirst_none (c : Char) : ∀ l, c ∉ l → splitFirst c l = none := by
  intro l
  induction l with
  | nil => intro _; rfl
  | cons x xs ih =>
    intro h
    have hx : x ≠ c := fun he => h (by rw [he]; exact List.mem_cons_self _ _)
    simp only [splitFirst, if_neg hx]
    rw [ih (fun hm => h (List.mem_cons_of_mem _ hm))]

/-- splitFirst splits exactly at the first occurrence of the separator. -/
theorem splitFirst_at (c : Char) : ∀ k, c ∉ k → ∀ v,
    splitFirst c (k ++ c :: v) = some (k, v) := by
  intro k
  induction k with
  | nil => intro _ v; simp [splitFirst]
  | cons x xs ih =>
    intro h v
    have hx : x ≠ c := fun he => h (by rw [he]; exact List.mem_cons_self _ _)
    show splitFirst c (x :: (xs ++ c :: v)) = some (x :: xs, v)
    simp only [splitFirst, if_neg hx]
    rw [ih (fun hm => h (List.mem_cons_of_mem _ hm)) v]

/-- Splitting a list whose first separator-free block is known peels off
that block. -/
theorem splitOnChar_append_first (c : Char) : ∀ a, c ∉ a → ∀ b,
    splitOnChar c (a ++ c :: b) = a :: splitOnChar c b := by
  intro a
  induction a with
  | nil =>
    intro _ b
    show splitOnChar c (c :: b) = [] :: splitOnChar c b
    simp [splitOnChar]
  | cons x xs ih =>
    intro ha b
    have hx : x ≠ c := fun he => ha (by rw [he]; exact List.mem_cons_self _ _)
    show splitOnChar c (x :: (xs ++ c :: b)) = (x :: xs) :: splitOnChar c b
    simp only [splitOnChar, if_neg hx]
    rw [ih (fun hm => ha (List.mem_cons_of_mem _ hm)) b]

/-- Character data of a pipe join with a non-empty tail. -/
theorem joinPipe_cons_data (s : String) : ∀ L : List String, L ≠ [] →
    (joinPipe (s :: L)).data = s.data ++ '|' :: (joinPipe L).data := by
  intro L
  match L with
  | [] => exact fun h => absurd rfl h
  | t :: rest =>
    intro _
    rw [show joinPipe (s :: t :: rest) = (s ++ "|") ++ joinPipe (t :: rest) from rfl,
      data_append, data_append]
    rw [List.append_assoc]
    rfl

/-- Splitting a pipe join of pipe-free segments recovers the segments. -/
theorem splitOnChar_joinPipe : ∀ segs : List String, segs ≠ [] →
    (∀ s ∈ segs, '|' ∉ s.data) →
    splitOnChar '|' (joinPipe segs).data = segs.map String.data
  | [] => fun h _ => absurd rfl h
  | [s] => fun _ hp => by
    show splitOnChar '|' s.data = [s.data]
    exact splitOnChar_no_sep '|' s.data (hp s (by simp))
  | s :: t :: rest => fun _ hp => by
    rw [joinPipe_cons_data s (t :: rest) (by simp)]
    rw [splitOnChar_append_first '|' s.data (hp s (by simp)) _]
    rw [splitOnChar_joinPipe (t :: rest) (by simp)
      (fun x hx => hp x (List.mem_cons_of_mem _ hx))]
    rfl

/-- An optional segment is empty exactly when the trimmed value is. -/
theorem optSeg_nil (k v : String) (h : optSeg k v = []) : goTrim v = "" := by
  by_cases hc : goTrim v = ""
  · exact hc
  · rw [optSeg, if_neg hc] at h
    exact absurd h (by simp)

/-- Members of an optional segment stay pipe-free when key and value are. -/
theorem optSeg_pipe (k v : String) (hk : '|' ∉ k.data) (hv : '|' ∉ (goTrim v).data) :
    ∀ s ∈ optSeg k v, '|' ∉ s.data := by
  intro s hs
  rw [optSeg] at hs
  by_cases h : goTrim v = ""
  · rw [if_pos h] at hs
    exact absurd hs (List.not_mem_nil s)
  · rw [if_neg h, List.mem_singleton] at hs
    subst hs
    rw [data_append]
    intro hmem
    rcases List.mem_append.mp hmem with h1 | h2
    · exact hk h1
    · exact hv h2

/-- netSegStep on an IP=value segment stores the trimmed value. -/
theorem netSegStep_ip (q : NetFields) (t : String) :
    netSegStep q (("IP=" ++ t).data) = { q with ip := goTrim t } := by
  have hd : ("IP=" ++ t).data = 'I' :: 'P' :: '=' :: t.data := rfl
  rw [hd]
  have hs : splitFirst '=' ('I' :: 'P' :: '=' :: t.data) = some (['I', 'P'], t.data) :=
    splitFirst_at '=' ['I', 'P'] (by decide) t.data
  simp only [netSegStep, hs]
  rw [show goToUpper (goTrim ⟨['I', 'P']⟩) = "IP" from by decide, if_pos rfl, mk_data]

/-- netSegStep on a MASK=value segment stores the trimmed value. -/
theorem netSegStep_mask (q : NetFields) (t : String) :
    netSegStep q (("MASK=" ++ t).data) = { q with mask := goTrim t } := by
  have hd : ("MASK=" ++ t).data = 'M' :: 'A' :: 'S' :: 'K' :: '=' :: t.data := rfl
  rw [hd]
  have hs : splitFirst '=' ('M' :: 'A' :: 'S' :: 'K' :: '=' :: t.data)
      = some (['M', 'A', 'S', 'K'], t.data) :=
    splitFirst_at '=' ['M', 'A', 'S', 'K'] (by decide) t.data
  simp only [netSegStep, hs]
  rw [show goToUpper (goTrim ⟨['M', 'A', 'S', 'K']⟩) = "MASK" from by decide,
    if_neg (by decide : ¬ ("MASK" : String) = "IP"), if_pos rfl, mk_data]

/-- netSegStep on a GW=value segment stores the trimmed value. -/
theorem netSegStep_gw (q : NetFields) (t : String) :
    netSegStep q (("GW=" ++ t).data) = { q with gw := goTrim t } := by
  have hd : ("GW=" ++ t).data = 'G' :: 'W' :: '=' :: t.data := rfl
  rw [hd]
  have hs : splitFirst '=' ('G' :: 'W' :: '=' :: t.data) = some (['G', 'W'], t.data) :=
    splitFirst_at '=' ['G', 'W'] (by decide) t.data
  simp only [netSegStep, hs]
  rw [show goToUpper (goTrim ⟨['G', 'W']⟩) = "GW" from by decide,
    if_neg (by decide : ¬ ("GW" : String) = "IP"),
    if_neg (by decide : ¬ ("GW" : String) = "MASK"), if_pos rfl, mk_data]

/-- netSegStep on a DNS=value segment stores the trimmed value. -/
theorem netSegStep_dns (q : NetFields) (t : String) :
    netSegStep q (("DNS=" ++ t).data) = { q with dns := goTrim t } := by
  have hd : ("DNS=" ++ t).data = 'D' :: 'N' :: 'S' :: '=' :: t.data := rfl
  rw [hd]
  have hs : splitFirst '=' ('D' :: 'N' :: 'S' :: '=' :: t.data)
      = some (['D', 'N', 'S'], t.data) :=
    splitFirst_at '=' ['D', 'N', 'S'] (by decide) t.data
  simp only [netSegStep, hs]
  rw [show goToUpper (goTrim ⟨['D', 'N', 'S']⟩) = "DNS" from by decide,
    if_neg (by decide : ¬ ("DNS" : String) = "IP"),
    if_neg (by decide : ¬ ("DNS" : String) = "MASK"),
    if_neg (by decide : ¬ ("DNS" : String) = "GW"), if_pos rfl, mk_data]

/-- Folding the optional IP segment updates at most the ip field. -/
theorem fold_opt_ip (q : NetFields) (t : String) :
    List.foldl netSegStep q ((optSeg "IP=" t).map String.data)
      = if goTrim t = "" then q else { q with ip := goTrim t } := by
  by_cases h : goTrim t = ""
  · rw [optSeg, if_pos h, if_pos h]
    rfl
  · rw [optSeg, if_neg h, if_neg h]
    show netSegStep q (("IP=" ++ goTrim t).data) = _
    rw [netSegStep_ip, goTrim_idem]

/-- Folding the optional MASK segment updates at most the mask field. -/
theorem fold_opt_mask (q : NetFields) (t : String) :
    List.foldl netSegStep q ((optSeg "MASK=" t).map String.data)
      = if goTrim t = "" then q else { q with mask := goTrim t } := by
  by_cases h : goTrim t = ""
  · rw [optSeg, if_pos h, if_pos h]
    rfl
  · rw [optSeg, if_neg h, if_neg h]
    show netSegStep q (("MASK=" ++ goTrim t).data) = _
    rw [netSegStep_mask, goTrim_idem]

/-- Folding the optional GW segment updates at most the gw field. -/
theorem fold_opt_gw (q : NetFields) (t : String) :
    List.foldl netSegStep q ((optSeg "GW=" t).map String.data)
      = if goTrim t = "" then q else { q with gw := goTrim t } := by
  by_cases h : goTrim t = ""
  · rw [optSeg, if_pos h, if_pos h]
    rfl
  · rw [optSeg, if_neg h, if_neg h]
    show netSegStep q (("GW=" ++ goTrim t).data) = _
    rw [netSegStep_gw, goTrim_idem]

/-- Folding the optional DNS segment updates at most the dns field. -/
theorem fold_opt_dns (q : NetFields) (t : String) :
    List.foldl netSegStep q ((optSeg "DNS=" t).map String.data)
      = if goTrim t = "" then q else { q with dns := goTrim t } := by
  by_cases h : goTrim t = ""
  · rw [optSeg, if_pos h, if_pos h]
    rfl
  · rw [optSeg, if_neg h, if_neg h]
    show netSegStep q (("DNS=" ++ goTrim t).data) = _
    rw [netSegStep_dns, goTrim_idem]

/-- C8 counterexample: a pipe inside a field value breaks the codec round
trip — encoding ip "1.1.1.1" with dns "8.8.8.8|IP=9.9.9.9" and decoding
yields ip "9.9.9.9" (the injected segment wins) and a truncated dns, so
decode of encode does not recover the non-empty fields. -/
theorem C8_codec_round_trip_counterexample :
    (parseNetKV (buildNetCfg "1.1.1.1" "" "" "8.8.8.8|IP=9.9.9.9")).ip
        ≠ goTrim "1.1.1.1"
      ∧ (parseNetKV (buildNetCfg "1.1.1.1" "" "" "8.8.8.8|IP=9.9.9.9")).dns
        ≠ goTrim "8.8.8.8|IP=9.9.9.9" := by decide

/-- C8 (amended): for field values whose trimmed form contains no pipe
character, decoding the encoded CFG message recovers exactly the trimmed
values — empty-after-trim fields are omitted from the encoding and come
back as the empty string. -/
theorem C8_codec_round_trip_amended (ip mask gw dns : String)
    (hip : '|' ∉ (goTrim ip).data) (hmask : '|' ∉ (goTrim mask).data)
    (hgw : '|' ∉ (goTrim gw).data) (hdns : '|' ∉ (goTrim dns).data) :
    parseNetKV (buildNetCfg ip mask gw dns)
      = { ip := goTrim ip, mask := goTrim mask, gw := goTrim gw, dns := goTrim dns } := by
  have hb : buildNetCfg ip mask gw dns
      = joinPipe ("CFG" :: (optSeg "IP=" ip ++ optSeg "MASK=" mask
          ++ optSeg "GW=" gw ++ optSeg "DNS=" dns)) := rfl
  rw [hb]
  by_cases hL : (optSeg "IP=" ip ++ optSeg "MASK=" mask
      ++ optSeg "GW=" gw ++ optSeg "DNS=" dns) = []
  · obtain ⟨hA, hB, hC, hD⟩ :
        optSeg "IP=" ip = [] ∧ optSeg "MASK=" mask = [] ∧ optSeg "GW=" gw = []
          ∧ optSeg "DNS=" dns = [] := by
      simpa [List.append_eq_nil] using hL
    rw [hA, hB, hC, hD, optSeg_nil _ _ hA, optSeg_nil _ _ hB, optSeg_nil _ _ hC,
      optSeg_nil _ _ hD]
    rfl
  · have hpf : ∀ s ∈ (optSeg "IP=" ip ++ optSeg "MASK=" mask
        ++ optSeg "GW=" gw ++ optSeg "DNS=" dns), '|' ∉ s.data := by
      intro s hs
      simp only [List.mem_append] at hs
      rcases hs with ((hs | hs) | hs) | hs
      · exact optSeg_pipe "IP=" ip (by decide) hip s hs
      · exact optSeg_pipe "MASK=" mask (by decide) hmask s hs
      · exact optSeg_pipe "GW=" gw (by decide) hgw s hs
      · exact optSeg_pipe "DNS=" dns (by decide) hdns s hs
    have hsf : splitFirst '|' (joinPipe ("CFG" :: (optSeg "IP=" ip ++ optSeg "MASK=" mask
        ++ optSeg "GW=" gw ++ optSeg "DNS=" dns))).data
        = some ("CFG".data, (joinPipe (optSeg "IP=" ip ++ optSeg "MASK=" mask
          ++ optSeg "GW=" gw ++ optSeg "DNS=" dns)).data) := by
      rw [joinPipe_cons_data "CFG" _ hL]
      exact splitFirst_at '|' "CFG".data (by decide) _
    simp only [parseNetKV, hsf]
    rw [splitOnChar_joinPipe _ hL hpf]
    rw [List.map_append, List.map_append, List.map_append]
    rw [List.foldl_append, List.foldl_append, List.foldl_append]
    rw [fold_opt_ip, fold_opt_mask, fold_opt_gw, fold_opt_dns]
    split_ifs <;> simp_all

/-- C8 witness: a concrete trimmed, pipe-free round trip through the codec. -/
theorem C8_codec_round_trip_witness :
    parseNetKV (buildNetCfg " 192.168.1.50 " "255.255.255.0" "" "8.8.8.8")
      = { ip := goTrim " 192.168.1.50 ", mask := goTrim "255.255.255.0",
          gw := goTrim "", dns := goTrim "8.8.8.8" } :=
  C8_codec_round_trip_amended " 192.168.1.50 " "255.255.255.0" "" "8.8.8.8"
    (by decide) (by decide) (by decide) (by decide)

end Trae
